import Mathlib

/-!
Verification of the YM-file player core (`ym-file-parser`).

This file gives a shallow embedding, in Lean 4, of the data model and the
operations of the YM song player: the fractional `Timer`, the four special
effects (SID voice, Sinus SID, DIGI-DRUM, Sync Buzzer), the time-ordered
`Mixer` merge, the per-frame producer `produce_next_ay_frame`, and the
`YM2!`/`YM3!` parsers.  The definitions follow the Rust source
(`src/ym/effects.rs`, `src/ym/player.rs`, `src/ym/parse.rs`, `src/ym.rs`,
`src/ym/flags.rs`) function by function.

Modelling conventions:
* `f32` values (timer `current`/`step`, timestamps, `frame_cycles`) are
  modelled by exact rationals `ℚ`.  `f32::EPSILON` is the exact constant
  `2⁻²³`.  The Rust expression `a % b` on floats is `a - trunc (a / b) * b`
  and is modelled that way.
* machine integers (`u8`, `u16`, `u32`, `usize`) are modelled by `ℕ`
  (with an explicit truncating cast where Rust casts a float to `u32`);
  none of the arithmetic performed on them can overflow their Rust types.
* the source's iterators are materialised into lists.  The source timer
  loop only terminates when `step > 0` (which `Timer::set_step` enforces
  via an assertion); the embedding runs the same loop on an explicit fuel
  that is provably sufficient whenever `step > 0`, and the characteristic
  equations (`Timer.run_eq`, `ddLoop` lemmas) certify that with positive
  step the fuelled loop satisfies exactly the source's loop equation.
* slice indexing that the parser's invariants keep in bounds is modelled
  with `List.getD` (out-of-bounds reads, which would panic in Rust, are
  unreachable under those invariants).
* `YmSong` metadata that no claim mentions (`author`, `comments`,
  `created`) is omitted from the record.
-/

namespace Ym

/-- An event passed to the `record` callback: timestamp (in chip cycles,
modelled as an exact rational), register number, register value. -/
abbrev Event : Type := ℚ × ℕ × ℕ

/-- Constant `MIXER_REG` from `effects.rs`. -/
def MIXER_REG : ℕ := 7

/-- Constant `VOL_A_REG` from `effects.rs`. -/
def VOL_A_REG : ℕ := 8

/-- Constant `ENV_PER_FINE_REG` from `effects.rs`. -/
def ENV_PER_FINE_REG : ℕ := 11

/-- Constant `ENV_PER_COARSE_REG` from `effects.rs`. -/
def ENV_PER_COARSE_REG : ℕ := 12

/-- Constant `ENV_REG` from `effects.rs`. -/
def ENV_REG : ℕ := 13

/-- Constant `MFP_TIMER_FREQUENCY` from `ym.rs`. -/
def MFP_TIMER_FREQUENCY : ℕ := 2457600

/-- The exact value of `f32::EPSILON`, namely `2⁻²³ = 1/8388608`, given
in normalised numerator/denominator form so that the kernel can evaluate
comparisons against it (`EPSILON_eq` certifies the value). -/
def EPSILON : ℚ := ⟨1, 8388608, by decide, by decide⟩

/-- The literal above is exactly `1 / 8388608`. -/
theorem EPSILON_eq : EPSILON = 1 / 8388608 := by
  have h1 : EPSILON = Rat.divInt 1 8388608 := Rat.mk'_eq_divInt
  rw [h1, Rat.divInt_eq_div]
  norm_num

/-- Rust's `f32::trunc` (rounding toward zero), on exact rationals. -/
def ratTrunc (x : ℚ) : ℤ := if 0 ≤ x then ⌊x⌋ else ⌈x⌉

/-- Rust's saturating cast from a float to `u32` (negative values clamp
to `0`, values above `u32::MAX` clamp to `u32::MAX`). -/
def u32cast (z : ℤ) : ℕ := min z.toNat 4294967295

/-- The timer type from `effects.rs`: a fractional step accumulator. -/
structure Timer where
  current : ℚ
  step : ℚ
deriving DecidableEq, Inhabited

/-- The body of `TimerIter::next` from `effects.rs`, run to exhaustion on
an explicit fuel: while `current < limit` it yields `current` and advances
by `step`; on exhaustion it returns `current - limit` (the carry-over).
The fuel-0 result coincides with the exhaustion result; `Timer.run` below
supplies fuel that is provably sufficient whenever `0 < step`. -/
def timerLoop (step limit : ℚ) : ℕ → ℚ → List ℚ × ℚ
  | 0, current => ([], current - limit)
  | fuel+1, current =>
    if current < limit then
      let r := timerLoop step limit fuel (current + step)
      (current :: r.1, r.2)
    else ([], current - limit)

/-- Fuel sufficient for `timerLoop` when the step is positive. -/
def timerFuel (t : Timer) (limit : ℚ) : ℕ := (⌈(limit - t.current) / t.step⌉).toNat

/-- Running a `TimerIter` over a whole frame: the list of yielded
timestamps together with the timer state left behind. -/
def Timer.run (t : Timer) (limit : ℚ) : List ℚ × Timer :=
  let r := timerLoop t.step limit (timerFuel t limit) t.current
  (r.1, ⟨r.2, t.step⟩)

/-- Method `Timer::reset` from `effects.rs`. -/
def Timer.reset (t : Timer) : Timer := { t with current := 0 }

/-- Method `Timer::set_step` from `effects.rs`.  The source asserts
`step > f32::EPSILON` (a panic); the embedding records the assignment. -/
def Timer.set_step (t : Timer) (step : ℚ) : Timer := { t with step := step }

/-- Method `Timer::fast_forward` from `effects.rs`: advances `current`
as if iterated without yielding and returns `trunc ((limit-current)/step)`.
`rest % step` is Rust's float remainder `rest - trunc (rest/step) * step`. -/
def Timer.fast_forward (t : Timer) (limit : ℚ) : ℤ × Timer :=
  if EPSILON ≤ t.step then
    let rest := limit - t.current
    let q := ratTrunc (rest / t.step)
    (q, { current := t.step - (rest - q * t.step), step := t.step })
  else (0, t)

/-- A generic rendering of `TimerIter::new(..).map(closure)` for the
stateful per-tick closures of `SyncBuzzer`, `SidVoice` and `SinusSid`:
`emit` builds the event from the yielded timestamp and the closure state,
`nextSt` is the state update performed on every tick. -/
def fxLoop {σ : Type} (emit : ℚ → σ → Event) (nextSt : σ → σ) (step limit : ℚ) :
    ℕ → ℚ → σ → List Event × ℚ × σ
  | 0, current, st => ([], current - limit, st)
  | fuel+1, current, st =>
    if current < limit then
      let r := fxLoop emit nextSt step limit fuel (current + step) (nextSt st)
      (emit current st :: r.1, r.2)
    else ([], current - limit, st)

/-- The `Sync Buzzer` effect state from `effects.rs`. -/
structure SyncBuzzer where
  timer : Timer
  shape : ℕ
  active : Bool
deriving DecidableEq, Inhabited

/-- The `SID voice` effect state from `effects.rs`. -/
structure SidVoice where
  timer : Timer
  vol : ℕ
  cur : Bool
  active : Bool
deriving DecidableEq, Inhabited

/-- The `Sinus SID` effect state from `effects.rs`. -/
structure SinusSid where
  timer : Timer
  amplitude : ℕ
  phase : ℕ
  active : Bool
deriving DecidableEq, Inhabited

/-- The `DIGI-DRUM` effect state from `effects.rs` (`end_` is the
source's field `end`, a Rust keyword-workaround only). -/
structure DigiDrum where
  timer : Timer
  cur : ℕ
  end_ : ℕ
deriving DecidableEq, Inhabited

/-- The `SINUS_SID` table from `effects.rs`.  The source builds it once
in `f32`: entry `n` is `((x.cos() * 0.5 + 0.5) * 255.0).round()` at
`x = fl(2·π·n/8)`.  The two entries nearest the rounding boundary are
decided by the sign of the computed cosine: at `n = 2` the `f32` angle
`fl(π/2) = 13176795/2²³` exceeds `π/2`, so the cosine comes out as a
small negative number (`≈ −4.371·10⁻⁸`) and the entry rounds down to
`127`; at `n = 6` the angle `fl(3·π/2) = 9882596/2²¹` exceeds `3·π/2`,
the cosine comes out as a small positive number (`≈ 1.192·10⁻⁸`) that
rounds up to exactly `0.5` in `f32`, and the entry becomes `128`.  The
table is therefore not mirror-symmetric.  Theorem
`SINUS_SID_of_f32_cos` below derives all eight entries from these sign
facts and coarse accuracy bounds on the computed cosines. -/
def SINUS_SID : List ℕ := [255, 218, 127, 37, 0, 37, 128, 218]

/-- Constant `SINUS_SID_PERIOD` from `effects.rs`. -/
def SINUS_SID_PERIOD : ℕ := 8

/-- Function `sinus_sid` from `effects.rs`: table lookup (masked to the
period) scaled by the volume in integer arithmetic. -/
def sinus_sid (phase vol : ℕ) : ℕ :=
  (SINUS_SID.getD (phase % 8) 0 * vol + 127) / 255

/-- Method `SyncBuzzer.stop`. -/
def SyncBuzzer.stop (b : SyncBuzzer) : SyncBuzzer := { b with active := false }

/-- Method `SyncBuzzer.start`: masks the shape to 4 bits, sets the step. -/
def SyncBuzzer.start (b : SyncBuzzer) (shape : ℕ) (step : ℚ) : SyncBuzzer :=
  { timer := b.timer.set_step step, shape := shape &&& 0x0f, active := true }

/-- Method `SyncBuzzer.iter_frame`: while active, every tick rewrites the
envelope shape register. -/
def SyncBuzzer.iter_frame (b : SyncBuzzer) (limit : ℚ) :
    Option (List Event) × SyncBuzzer :=
  if b.active then
    let r := b.timer.run limit
    (some (r.1.map fun ts => (ts, ENV_REG, b.shape)), { b with timer := r.2 })
  else (none, b)

/-- Method `SidVoice.stop`. -/
def SidVoice.stop (sv : SidVoice) : SidVoice := { sv with active := false }

/-- Method `SidVoice.reset`. -/
def SidVoice.reset (sv : SidVoice) : SidVoice :=
  { sv with timer := sv.timer.reset, cur := false }

/-- Method `SidVoice.start`. -/
def SidVoice.start (sv : SidVoice) (vol : ℕ) (step : ℚ) : SidVoice :=
  { sv with timer := sv.timer.set_step step, vol := vol, active := true }

/-- Method `SidVoice.iter_frame`: when active, each tick emits `0` or
`vol` (alternating, starting with the current toggle state) and flips the
toggle; when inactive, the timer is fast-forwarded and the toggle flipped
when the consumed tick count (cast to `u32`) is odd. -/
def SidVoice.iter_frame (sv : SidVoice) (limit : ℚ) (reg : ℕ) :
    Option (List Event) × SidVoice :=
  if sv.active then
    let r := fxLoop (fun ts cur => (ts, reg, if cur then 0 else sv.vol)) Bool.not
               sv.timer.step limit (timerFuel sv.timer limit) sv.timer.current sv.cur
    (some r.1, { sv with timer := ⟨r.2.1, sv.timer.step⟩, cur := r.2.2 })
  else
    let f := sv.timer.fast_forward limit
    (none, { sv with timer := f.2,
                     cur := if u32cast f.1 % 2 = 1 then !sv.cur else sv.cur })

/-- Method `SinusSid.stop`. -/
def SinusSid.stop (ss : SinusSid) : SinusSid := { ss with active := false }

/-- Method `SinusSid.start`. -/
def SinusSid.start (ss : SinusSid) (amplitude : ℕ) (step : ℚ) : SinusSid :=
  { ss with timer := ss.timer.set_step step, amplitude := amplitude, active := true }

/-- Method `SinusSid.iter_frame`: each tick emits the scaled table value
at the current phase and advances the phase modulo 8. -/
def SinusSid.iter_frame (ss : SinusSid) (limit : ℚ) (reg : ℕ) :
    Option (List Event) × SinusSid :=
  if ss.active then
    let r := fxLoop (fun ts ph => (ts, reg, sinus_sid ph ss.amplitude))
               (fun ph => (ph + 1) % 8)
               ss.timer.step limit (timerFuel ss.timer limit) ss.timer.current ss.phase
    (some r.1, { ss with timer := ⟨r.2.1, ss.timer.step⟩, phase := r.2.2 })
  else (none, ss)

/-- Method `DigiDrum.is_active`. -/
def DigiDrum.is_active (dd : DigiDrum) : Prop := dd.cur < dd.end_

instance (dd : DigiDrum) : Decidable dd.is_active := by
  unfold DigiDrum.is_active
  infer_instance

/-- Method `DigiDrum.stop`. -/
def DigiDrum.stop (dd : DigiDrum) : DigiDrum := { dd with end_ := 0 }

/-- Method `DigiDrum.start`: resets the timer, sets the step and the
sample range (`start_`/`end_` are the source's `start`/`end` arguments). -/
def DigiDrum.start (dd : DigiDrum) (start_ end_ : ℕ) (step : ℚ) : DigiDrum :=
  { timer := dd.timer.reset.set_step step, cur := start_, end_ := end_ }

/-- The loop of the closure built by `DigiDrum.iter_frame`
(`iter::from_fn` in the source): each timer tick emits the next sample;
when the samples run out mid-frame the timer is forced to `limit` and one
final event restoring `endVol` is emitted.  Returns the events, the final
timer `current`, and the number of samples left unconsumed. -/
def ddLoop (step limit : ℚ) (reg endVol : ℕ) :
    ℕ → ℚ → List ℕ → List Event × ℚ × ℕ
  | 0, current, samples => ([], current - limit, samples.length)
  | fuel+1, current, samples =>
    if current < limit then
      match samples with
      | vol :: rest =>
        let r := ddLoop step limit reg endVol fuel (current + step) rest
        ((current, reg, vol) :: r.1, r.2)
      | [] =>
        let r := ddLoop step limit reg endVol fuel limit []
        ((current, reg, endVol) :: r.1, r.2)
    else ([], current - limit, samples.length)

/-- Method `DigiDrum.iter_frame`. -/
def DigiDrum.iter_frame (dd : DigiDrum) (limit : ℚ) (reg : ℕ)
    (dd_samples : List ℕ) (endVol : ℕ) : Option (List Event) × DigiDrum :=
  if dd.cur < dd.end_ then
    let samples := (dd_samples.take dd.end_).drop dd.cur
    let r := ddLoop dd.timer.step limit reg endVol
               (timerFuel dd.timer limit) dd.timer.current samples
    (some r.1, { timer := ⟨r.2.1, dd.timer.step⟩, cur := dd.end_ - r.2.2, end_ := dd.end_ })
  else (none, dd)

/-- The peeked timestamp of a source (head timestamp, if any). -/
def peekT (l : List Event) : Option ℚ := l.head?.map (·.1)

/-- The comparator used by `Mixer::next` (`min_by` over peeked heads):
`some ts` values compare by timestamp, and an exhausted (`none`) source
compares greater than any non-exhausted one. -/
def cmpLe (a b : Option ℚ) : Bool :=
  match a, b with
  | some x, some y => decide (x ≤ y)
  | some _, none => true
  | none, some _ => false
  | none, none => true

/-- The index selected by `Mixer::next`'s
`iter_mut().map(Peekable::peek).enumerate().min_by(..)`: the first source
whose peeked head is minimal under `cmpLe` (Rust's `min_by` returns the
first of equally-minimal elements).  `none` only when there are no
sources at all. -/
def mixerSelect : List (List Event) → Option ℕ
  | [] => none
  | l :: ls =>
    match mixerSelect ls with
    | none => some 0
    | some j => if cmpLe (peekT l) (peekT (ls.getD j [])) then some 0 else some (j + 1)

/-- One step of `Mixer::next`: select the minimal source and pop its head
(the pop returns `none` exactly when every source is exhausted). -/
def mixerNext (srcs : List (List Event)) : Option (Event × List (List Event)) :=
  match mixerSelect srcs with
  | none => none
  | some i =>
    match srcs.getD i [] with
    | [] => none
    | e :: rest => some (e, srcs.set i rest)

/-- Total number of pending events over all sources (the fuel for the
mixer loop: every successful step pops exactly one event). -/
def mixerTotal (srcs : List (List Event)) : ℕ := (srcs.map List.length).sum

/-- Draining the `Mixer` iterator, on fuel. -/
def mixerLoop : ℕ → List (List Event) → List Event
  | 0, _ => []
  | fuel+1, srcs =>
    match mixerNext srcs with
    | none => []
    | some (e, rest) => e :: mixerLoop fuel rest

/-- The full merged event stream produced by draining the `Mixer`. -/
def mixerRun (srcs : List (List Event)) : List Event :=
  mixerLoop (mixerTotal srcs) srcs

/-- Function `iter_select` from `effects.rs`: the first retained iterator
of a voice's `(SidVoice, SinusSid, DigiDrum)` slot triple. -/
def iter_select (t : Option (List Event) × Option (List Event) × Option (List Event)) :
    Option (List Event) :=
  match t.1 with
  | some it => some it
  | none =>
    match t.2.1 with
    | some it => some it
    | none => t.2.2

/-- The YM-file version (`YmVersion` in `ym.rs`). -/
inductive YmVersion where
  | Ym2 | Ym3 | Ym4 | Ym5 | Ym6
deriving DecidableEq, Inhabited

/-- The effect type selector (`FxType` in `flags.rs`). -/
inductive FxType where
  | SidVoice | DigiDrum | SinusSid | SyncBuzz
deriving DecidableEq, Inhabited

/-- Decoding `FxChannel::from(flags).channel()` from `flags.rs`: bits 4–5
of the control byte select off/voice-A/voice-B/voice-C. -/
def fx_channel (b : ℕ) : Option ℕ :=
  match (b &&& 0b00110000) >>> 4 with
  | 0 => none
  | c => some (c - 1)

/-- Method `FxCtrlFlags::ts_channel` from `flags.rs`: the
`MFP_TIMER_RESTART` bit (bit 6) paired with the channel. -/
def ts_channel (b : ℕ) : Option (Bool × ℕ) :=
  (fx_channel b).map fun ch => (b &&& 0b01000000 ≠ 0, ch)

/-- Method `FxCtrlFlags::dd_channel` from `flags.rs`. -/
def dd_channel (b : ℕ) : Option ℕ := fx_channel b

/-- Decoding `FxType::from(flags)` from `flags.rs`: bits 6–7 select the
effect type. -/
def fx_type (b : ℕ) : FxType :=
  match b &&& 0b11000000 with
  | 0b00000000 => FxType.SidVoice
  | 0b01000000 => FxType.DigiDrum
  | 0b10000000 => FxType.SinusSid
  | _ => FxType.SyncBuzz

/-- Method `FxCtrlFlags::fx6_channel` from `flags.rs`. -/
def fx6_channel (b : ℕ) : Option (FxType × ℕ) :=
  (fx_channel b).map fun ch => (fx_type b, ch)

/-- Function `calculate_timer_divisor` from `ym.rs`: the three top bits of
`prediv3` select the pre-divisor, multiplied by the 8-bit divisor;
`none` (Rust `NonZeroU32::new` returning `None`) when the product is 0. -/
def calculate_timer_divisor (prediv3 div8 : ℕ) : Option ℕ :=
  let prediv : ℕ :=
    match prediv3 &&& 0b11100000 with
    | 0b00000000 => 0
    | 0b00100000 => 4
    | 0b01000000 => 10
    | 0b01100000 => 16
    | 0b10000000 => 50
    | 0b10100000 => 64
    | 0b11000000 => 100
    | _ => 200
  if prediv * div8 = 0 then none else some (prediv * div8)

/-- One YM frame (`YmFrame` in `ym.rs`): 16 register bytes. -/
structure YmFrame where
  data : List ℕ
deriving DecidableEq

instance : Inhabited YmFrame := ⟨⟨List.replicate 16 0⟩⟩

/-- Method `YmFrame::vol` from `ym.rs`: the masked volume register of the
indicated channel (the source first masks the channel to 2 bits). -/
def YmFrame.vol (f : YmFrame) (chan : ℕ) : ℕ :=
  f.data.getD (VOL_A_REG + chan % 4) 0 &&& 0x1f

/-- Method `YmFrame::fx0`: the control byte in frame register 1. -/
def YmFrame.fx0 (f : YmFrame) : ℕ := f.data.getD 1 0

/-- Method `YmFrame::fx1`: the control byte in frame register 3. -/
def YmFrame.fx1 (f : YmFrame) : ℕ := f.data.getD 3 0

/-- Method `YmFrame::timer_divisor0`. -/
def YmFrame.timer_divisor0 (f : YmFrame) : Option ℕ :=
  calculate_timer_divisor (f.data.getD 6 0) (f.data.getD 14 0)

/-- Method `YmFrame::timer_divisor1`. -/
def YmFrame.timer_divisor1 (f : YmFrame) : Option ℕ :=
  calculate_timer_divisor (f.data.getD 8 0) (f.data.getD 15 0)

/-- The per-voice effect state triple (one entry of `voice_effects`). -/
abbrev VoiceFx : Type := SidVoice × SinusSid × DigiDrum

/-- The YM song model (`YmSong` in `ym.rs`).  The metadata fields
`author`, `comments` and `created`, which no claim mentions, are omitted. -/
structure YmSong where
  version : YmVersion
  song_attrs : ℕ
  title : String
  chipset_frequency : ℕ
  frame_frequency : ℕ
  loop_frame : ℕ
  frames : List YmFrame
  dd_samples : List ℕ
  dd_samples_ends : List ℕ
  cursor : ℕ
  voice_effects : List VoiceFx
  buzzer : SyncBuzzer
deriving DecidableEq

/-- Method `YmSong::clock_frequency` (as an exact rational). -/
def YmSong.clock_frequency (s : YmSong) : ℚ := (s.chipset_frequency : ℚ)

/-- Method `YmSong::frame_cycles`: chip cycles per music frame. -/
def YmSong.frame_cycles (s : YmSong) : ℚ :=
  s.clock_frequency / (s.frame_frequency : ℚ)

/-- Method `YmSong::timer_interval`: effect step in chip cycles for the
given (non-zero) divisor. -/
def YmSong.timer_interval (s : YmSong) (divisor : ℕ) : ℚ :=
  s.clock_frequency * (divisor : ℚ) / (MFP_TIMER_FREQUENCY : ℚ)

/-- Method `YmSong::sample_data_range`: start/end offsets of the given
sample in `dd_samples` (the source indexes `dd_samples_ends`, always with
`sample < 32`). -/
def YmSong.sample_data_range (s : YmSong) (sample : ℕ) : ℕ × ℕ :=
  (match sample with
   | 0 => 0
   | i + 1 => s.dd_samples_ends.getD i 0,
   s.dd_samples_ends.getD sample 0)

/-- Updating one voice's effect triple inside `voice_effects`. -/
def updateVoice (ve : List VoiceFx) (chan : ℕ) (f : VoiceFx → VoiceFx) :
    List VoiceFx :=
  ve.set chan (f (ve.getD chan default))

/-- Method `YmSong::fx_update` from `player.rs`, acting on the effect
state (`voice_effects`, `buzzer`). -/
def fx_update (s : YmSong) (fx : FxType) (chan : ℕ) (divisor : ℕ) (vol : ℕ)
    (ve : List VoiceFx) (bz : SyncBuzzer) : List VoiceFx × SyncBuzzer :=
  let step := s.timer_interval divisor
  match fx with
  | FxType.SidVoice =>
    (updateVoice ve chan fun v => (v.1.start (vol &&& 0x0f) step, v.2.1, v.2.2), bz)
  | FxType.DigiDrum =>
    let r := s.sample_data_range vol
    (updateVoice ve chan fun v => (v.1, v.2.1, v.2.2.start r.1 r.2 step), bz)
  | FxType.SinusSid =>
    (updateVoice ve chan fun v => (v.1, v.2.1.start (vol &&& 0x0f) step, v.2.2), bz)
  | FxType.SyncBuzz =>
    (ve, bz.start (vol &&& 0x0f) step)

/-- The built-in YM2 sample end offset table `YM2_SAMPLE_ENDS` from
`parse.rs`. -/
def YM2_SAMPLE_ENDS : List ℕ :=
  [  631,  1262,  1752,  2242,  2941,  3446,  4173,  4653,
    6761, 10992, 11370, 12897, 13155, 13413, 13864, 15659,
   15930, 16563, 17942, 18089, 18228, 18313, 18463, 18970,
   19200, 19320, 19591, 19884, 20275, 20666, 21057, 21464,
   21871, 22278, 22595, 23002, 23313, 23772, 24101, 24757]

/-- Method `YmSong::play_ym2_frame` from `player.rs`: envelope writes at
`t = 0` (registers 11, 12 forced to 0, 13 forced to `0x10`, skipped when
the shape byte is `0xff`), and a DIGI-DRUM start on voice C when bit 7 of
the voice-C volume byte is set and the 7-bit sample index is found in the
(guarded, `Option`-returning) lookup into `YM2_SAMPLE_ENDS`. -/
def play_ym2_frame (s : YmSong) : List Event × List VoiceFx × SyncBuzzer :=
  let frame := s.frames.getD s.cursor default
  let shape := frame.data.getD ENV_REG 0
  let evs : List Event :=
    if shape ≠ 0xff then
      [(0, ENV_PER_FINE_REG, frame.data.getD ENV_PER_FINE_REG 0),
       (0, ENV_PER_COARSE_REG, 0),
       (0, ENV_REG, 0x10)]
    else []
  let vol_c := frame.data.getD 10 0
  let ve :=
    if vol_c &&& 0x80 = 0x80 then
      let sample := vol_c &&& 0x7f
      let prediv := frame.data.getD ENV_PER_COARSE_REG 0
      match YM2_SAMPLE_ENDS.get? sample with
      | some end_ =>
        if 4 * prediv ≠ 0 then
          let step := s.timer_interval (4 * prediv)
          let cur : ℕ :=
            match sample with
            | 0 => 0
            | index + 1 => YM2_SAMPLE_ENDS.getD index 0
          updateVoice s.voice_effects 2 fun v => (v.1, v.2.1, v.2.2.start cur end_ step)
        else s.voice_effects
      | none => s.voice_effects
    else s.voice_effects
  (evs, ve, s.buzzer)

/-- Method `YmSong::play_ym3_frame` from `player.rs`: the envelope period
registers 11 and 12 at `t = 0`, then the shape register 13 unless the
shape byte is `0xff`. -/
def play_ym3_frame (s : YmSong) : List Event :=
  let frame := s.frames.getD s.cursor default
  let evs : List Event :=
    [(0, ENV_PER_FINE_REG, frame.data.getD ENV_PER_FINE_REG 0),
     (0, ENV_PER_COARSE_REG, frame.data.getD ENV_PER_COARSE_REG 0)]
  let shape := frame.data.getD ENV_REG 0
  evs ++ (if shape ≠ 0xff then [((0 : ℚ), ENV_REG, shape)] else [])

/-- Method `YmSong::play_ym5_frame` from `player.rs`. -/
def play_ym5_frame (s : YmSong) : List Event × List VoiceFx × SyncBuzzer :=
  let evs := play_ym3_frame s
  let frame := s.frames.getD s.cursor default
  let ts := (ts_channel frame.fx0).bind fun rc =>
    frame.timer_divisor0.map fun div => (rc.1, rc.2, div, frame.vol rc.2)
  let dd := (dd_channel frame.fx1).bind fun chan =>
    frame.timer_divisor1.map fun div => (chan, div, frame.vol chan)
  let st0 := (s.voice_effects, s.buzzer)
  let st1 :=
    match ts with
    | some (reset_sid, chan, divisor, vol) =>
      let ve :=
        if reset_sid then
          updateVoice st0.1 chan fun v => (v.1.reset, v.2.1, v.2.2)
        else st0.1
      fx_update s FxType.SidVoice chan divisor vol ve st0.2
    | none => st0
  let st2 :=
    match dd with
    | some (chan, divisor, vol) =>
      fx_update s FxType.DigiDrum chan divisor vol st1.1 st1.2
    | none => st1
  (evs, st2)

/-- Method `YmSong::play_ym6_frame` from `player.rs`. -/
def play_ym6_frame (s : YmSong) : List Event × List VoiceFx × SyncBuzzer :=
  let evs := play_ym3_frame s
  let frame := s.frames.getD s.cursor default
  let f0 := (fx6_channel frame.fx0).bind fun fc =>
    frame.timer_divisor0.map fun div => (fc.1, fc.2, div, frame.vol fc.2)
  let f1 := (fx6_channel frame.fx1).bind fun fc =>
    frame.timer_divisor1.map fun div => (fc.1, fc.2, div, frame.vol fc.2)
  let st0 := (s.voice_effects, s.buzzer)
  let st1 :=
    match f0 with
    | some (fx, chan, divisor, vol) => fx_update s fx chan divisor vol st0.1 st0.2
    | none => st0
  let st2 :=
    match f1 with
    | some (fx, chan, divisor, vol) => fx_update s fx chan divisor vol st1.1 st1.2
    | none => st1
  (evs, st2)

/-- The per-frame stop of the transient effects at the top of
`produce_next_ay_frame`: SID voice and Sinus SID on every voice, and the
buzzer (`DigiDrum` persists). -/
def stopTransient (ve : List VoiceFx) : List VoiceFx :=
  ve.map fun v => (v.1.stop, v.2.1.stop, v.2.2)

/-- The version dispatch of `produce_next_ay_frame`. -/
def dispatchFrame (s : YmSong) : List Event × List VoiceFx × SyncBuzzer :=
  match s.version with
  | YmVersion.Ym2 => play_ym2_frame s
  | YmVersion.Ym3 => (play_ym3_frame s, s.voice_effects, s.buzzer)
  | YmVersion.Ym4 | YmVersion.Ym5 => play_ym5_frame s
  | YmVersion.Ym6 => play_ym6_frame s

/-- The per-voice stage of the frame producer's `while let` loop: try the
units in priority order SID voice, Sinus SID, DIGI-DRUM, retaining the
first active unit's event iterator (the `frm_iters` slot triple).  The
SID voice stage runs (and updates its state through `fast_forward`) even
when inactive, exactly as in the source's `else if` chain. -/
def voiceFrame (v : VoiceFx) (limit : ℚ) (reg : ℕ) (dd_samples : List ℕ)
    (endVol : ℕ) :
    (Option (List Event) × Option (List Event) × Option (List Event)) × VoiceFx :=
  let r1 := v.1.iter_frame limit reg
  match r1.1 with
  | some evs => ((some evs, none, none), (r1.2, v.2.1, v.2.2))
  | none =>
    let r2 := v.2.1.iter_frame limit reg
    match r2.1 with
    | some evs => ((none, some evs, none), (r1.2, r2.2, v.2.2))
    | none =>
      let r3 := v.2.2.iter_frame limit reg dd_samples endVol
      match r3.1 with
      | some evs => ((none, none, some evs), (r1.2, r2.2, r3.2))
      | none => ((none, none, none), (r1.2, r2.2, r3.2))

/-- Whether no unit of a voice retained an iterator this frame (the final
`else` of the producer's priority chain). -/
def allNone (t : Option (List Event) × Option (List Event) × Option (List Event)) :
    Bool :=
  t.1.isNone && t.2.1.isNone && t.2.2.isNone

/-- Method `YmSong::produce_next_ay_frame` from `player.rs`: stops the
transient effects, dispatches the version-specific frame interpretation,
emits registers 0–6 verbatim at `t = 0`, processes the three voices (a
plain volume write for a voice with no active effect, otherwise its
retained iterator), emits the mixer byte as register 7 with the tone and
noise bits forced for every voice with an active DIGI-DRUM, drains the
mixer over the retained iterators (voices A, B, C, then the buzzer), and
advances the cursor with loop-back.  Returns the emitted events, the
updated song, and the end-of-song flag.  `frameEvents` is the body up to
(but excluding) the cursor advance: it returns the emitted events and the
updated effect states. -/
def frameEvents (s : YmSong) : List Event × List VoiceFx × SyncBuzzer :=
  let s0 : YmSong := { s with voice_effects := stopTransient s.voice_effects,
                              buzzer := s.buzzer.stop }
  let d := dispatchFrame s0
  let frame := s.frames.getD s.cursor default
  let fc := s.frame_cycles
  let w0 := voiceFrame (d.2.1.getD 0 default) fc VOL_A_REG s.dd_samples (frame.vol VOL_A_REG)
  let w1 := voiceFrame (d.2.1.getD 1 default) fc (VOL_A_REG + 1) s.dd_samples (frame.vol (VOL_A_REG + 1))
  let w2 := voiceFrame (d.2.1.getD 2 default) fc (VOL_A_REG + 2) s.dd_samples (frame.vol (VOL_A_REG + 2))
  let chan_mix :=
    ((frame.data.getD MIXER_REG 0
      ||| (if w0.1.2.2.isSome then 0b001001 else 0))
      ||| (if w1.1.2.2.isSome then 0b010010 else 0))
      ||| (if w2.1.2.2.isSome then 0b100100 else 0)
  let volEvs : List Event :=
    (if allNone w0.1 then [((0 : ℚ), VOL_A_REG, frame.vol VOL_A_REG)] else [])
    ++ (if allNone w1.1 then [((0 : ℚ), VOL_A_REG + 1, frame.vol (VOL_A_REG + 1))] else [])
    ++ (if allNone w2.1 then [((0 : ℚ), VOL_A_REG + 2, frame.vol (VOL_A_REG + 2))] else [])
  let bz := d.2.2.iter_frame fc
  let srcs := [iter_select w0.1, iter_select w1.1, iter_select w2.1].filterMap id
              ++ bz.1.toList
  let events : List Event :=
    d.1
    ++ (List.range MIXER_REG).map (fun r => ((0 : ℚ), r, frame.data.getD r 0))
    ++ volEvs
    ++ [((0 : ℚ), MIXER_REG, chan_mix)]
    ++ mixerRun srcs
  (events, [w0.2, w1.2, w2.2], bz.2)

def YmSong.produce_next_ay_frame (s : YmSong) : List Event × YmSong × Bool :=
  let p := frameEvents s
  let n := s.frames.length
  if (s.cursor + 1) % n = 0 then
    (p.1, { s with cursor := min s.loop_frame (n - 1),
                   voice_effects := p.2.1, buzzer := p.2.2 }, true)
  else
    (p.1, { s with cursor := (s.cursor + 1) % n,
                   voice_effects := p.2.1, buzzer := p.2.2 }, false)

/-- Constructor `YmSong::new` from `ym.rs`: default frequencies, empty
sample bank, all-zero sample end table, inactive effects. -/
def YmSong.new (version : YmVersion) (frames : List YmFrame) (loop_frame : ℕ)
    (title : String) : YmSong :=
  { version := version,
    song_attrs := 0,
    title := title,
    chipset_frequency := 2000000,
    frame_frequency := 50,
    loop_frame := loop_frame,
    frames := frames,
    dd_samples := [],
    dd_samples_ends := List.replicate 32 0,
    cursor := 0,
    voice_effects := List.replicate 3 default,
    buzzer := default }

/-- Function `read_dword` from `parse.rs`: a big-endian `u32` from the
first four bytes. -/
def read_dword (bytes : List ℕ) : ℕ :=
  ((bytes.getD 0 0 * 256 + bytes.getD 1 0) * 256 + bytes.getD 2 0) * 256 + bytes.getD 3 0

/-- Function `read_interleaved_frames` from `parse.rs`: frame data stored
register-major (all register-0 bytes, then all register-1 bytes, …);
registers `≥ regs` stay at their `YmFrame::default` value `0`. -/
def read_interleaved_frames (nframes regs : ℕ) (bytes : List ℕ) : List YmFrame :=
  (List.range nframes).map fun j =>
    ⟨(List.range 16).map fun r => if r < regs then bytes.getD (r * nframes + j) 0 else 0⟩

/-- Function `parse_ym3` from `parse.rs`, on the body bytes following the
4-byte identifier (`size` in the source is exactly the length of that
body).  Body size mod 14 selects no-loop/loop/error; a zero frame count
is rejected; with remainder 4 the trailing big-endian dword is the loop
frame. -/
def parse_ym3 (version : YmVersion) (bytes : List ℕ) (title : String) :
    Except String YmSong :=
  let size := bytes.length
  if size % 14 ≠ 0 ∧ size % 14 ≠ 4 then Except.error "wrong file size"
  else if size / 14 = 0 then Except.error "no YM data"
  else
    let nframes := size / 14
    let frames := read_interleaved_frames nframes 14 bytes
    let loop_frame := if size % 14 = 4 then read_dword (bytes.drop (14 * nframes)) else 0
    Except.ok (YmSong.new version frames loop_frame title)

/-- Function `parse_ym2` from `parse.rs`: parses the body as YM3 data and
attaches the built-in sample bank, splitting every packed resource byte
into its high nibble followed by its low nibble.  The packed resource
`resources/ym2_samples4bit.bin` is embedded with `include_bytes!` and is
not part of the sources, so the parser is modelled parametrically in the
resource bytes. -/
def parse_ym2 (resource : List ℕ) (bytes : List ℕ) (title : String) :
    Except String YmSong :=
  (parse_ym3 YmVersion.Ym2 bytes title).map fun ym_song =>
    { ym_song with
      dd_samples := resource.flatMap fun smp => [smp >>> 4, smp &&& 0x0F] }

/-- Repeatedly calling `produce_next_ay_frame`, recording the returned
end-of-song flags. -/
def produceLoop (s : YmSong) : ℕ → List Bool
  | 0 => []
  | n + 1 =>
    let r := s.produce_next_ay_frame
    r.2.2 :: produceLoop r.2.1 n


/-! ### Timer lemmas -/

theorem timerLoop_of_not_lt {step limit : ℚ} (f : ℕ) {c : ℚ} (h : ¬ c < limit) :
    timerLoop step limit f c = ([], c - limit) := by
  cases f <;> simp [timerLoop, h]

theorem timerLoop_mem {step limit : ℚ} (hs : 0 ≤ step) :
    ∀ (f : ℕ) (c : ℚ), ∀ x ∈ (timerLoop step limit f c).1, c ≤ x ∧ x < limit := by
  intro f
  induction f with
  | zero => intro c x hx; simp [timerLoop] at hx
  | succ f ih =>
    intro c x hx
    by_cases hc : c < limit
    · simp only [timerLoop, if_pos hc, List.mem_cons] at hx
      rcases hx with rfl | hx
      · exact ⟨le_refl _, hc⟩
      · have := ih (c + step) x hx
        exact ⟨le_trans (by linarith) this.1, this.2⟩
    · simp [timerLoop, hc] at hx

theorem timerLoop_pairwise {step limit : ℚ} (hs : 0 ≤ step) :
    ∀ (f : ℕ) (c : ℚ), (timerLoop step limit f c).1.Pairwise (· ≤ ·) := by
  intro f
  induction f with
  | zero => intro c; simp [timerLoop]
  | succ f ih =>
    intro c
    by_cases hc : c < limit
    · simp only [timerLoop, if_pos hc]
      refine List.Pairwise.cons ?_ (ih (c + step))
      intro x hx
      have := (timerLoop_mem hs f (c + step) x hx).1
      linarith
    · simp [timerLoop, hc]

theorem timerLoop_final (step limit : ℚ) :
    ∀ (f : ℕ) (c : ℚ),
      (timerLoop step limit f c).2
        = c + ((timerLoop step limit f c).1.length : ℚ) * step - limit := by
  intro f
  induction f with
  | zero => intro c; simp [timerLoop]
  | succ f ih =>
    intro c
    by_cases hc : c < limit
    · simp only [timerLoop, if_pos hc, List.length_cons]
      have := ih (c + step)
      push_cast
      push_cast at this
      linarith
    · simp [timerLoop, hc]

theorem timerLoop_final_nonneg {step limit : ℚ} (hs : 0 ≤ step) :
    ∀ (f : ℕ) (c : ℚ), limit ≤ c + (f : ℚ) * step →
      0 ≤ (timerLoop step limit f c).2 := by
  intro f
  induction f with
  | zero => intro c hf; simp only [timerLoop]; push_cast at hf; linarith
  | succ f ih =>
    intro c hf
    by_cases hc : c < limit
    · simp only [timerLoop, if_pos hc]
      refine ih (c + step) ?_
      push_cast at hf ⊢
      linarith
    · simp only [timerLoop, if_neg hc]
      linarith [not_lt.mp hc]

theorem timerLoop_final_lt_step {step limit : ℚ} :
    ∀ (f : ℕ) (c : ℚ), c < limit → limit ≤ c + (f : ℚ) * step →
      (timerLoop step limit f c).2 < step := by
  intro f
  induction f with
  | zero => intro c hc hf; push_cast at hf; linarith
  | succ f ih =>
    intro c hc hf
    simp only [timerLoop, if_pos hc]
    by_cases hc2 : c + step < limit
    · refine ih (c + step) hc2 ?_
      push_cast at hf ⊢
      linarith
    · rw [timerLoop_of_not_lt f hc2]
      simp only
      linarith [not_lt.mp hc2]

theorem timerFuel_suff (t : Timer) (limit : ℚ) (hs : 0 < t.step) :
    limit ≤ t.current + (timerFuel t limit : ℚ) * t.step := by
  by_cases hc : limit ≤ t.current
  · have : (0 : ℚ) ≤ (timerFuel t limit : ℚ) * t.step :=
      mul_nonneg (by positivity) (le_of_lt hs)
    linarith
  · have h1 : (limit - t.current) / t.step ≤ ((⌈(limit - t.current) / t.step⌉ : ℤ) : ℚ) :=
      Int.le_ceil _
    have h2 : ((⌈(limit - t.current) / t.step⌉ : ℤ) : ℚ) ≤ ((timerFuel t limit : ℕ) : ℚ) := by
      unfold timerFuel
      exact_mod_cast Int.self_le_toNat _
    have h3 : (limit - t.current) / t.step ≤ (timerFuel t limit : ℚ) := le_trans h1 h2
    have h4 : limit - t.current ≤ (timerFuel t limit : ℚ) * t.step :=
      (div_le_iff₀ hs).mp h3
    linarith

theorem Timer.run_mem {t : Timer} {limit : ℚ} (hs : 0 ≤ t.step) :
    ∀ x ∈ (t.run limit).1, t.current ≤ x ∧ x < limit :=
  timerLoop_mem hs _ _

theorem Timer.run_pairwise {t : Timer} {limit : ℚ} (hs : 0 ≤ t.step) :
    (t.run limit).1.Pairwise (· ≤ ·) :=
  timerLoop_pairwise hs _ _

theorem Timer.run_step (t : Timer) (limit : ℚ) : (t.run limit).2.step = t.step := rfl

theorem Timer.run_final (t : Timer) (limit : ℚ) :
    (t.run limit).2.current
      = t.current + ((t.run limit).1.length : ℚ) * t.step - limit :=
  timerLoop_final _ _ _ _

theorem Timer.run_final_nonneg {t : Timer} {limit : ℚ} (hs : 0 < t.step) :
    0 ≤ (t.run limit).2.current :=
  timerLoop_final_nonneg (le_of_lt hs) _ _ (timerFuel_suff t limit hs)

theorem Timer.run_final_lt_step {t : Timer} {limit : ℚ} (hs : 0 < t.step)
    (hc : t.current < limit) : (t.run limit).2.current < t.step :=
  timerLoop_final_lt_step _ _ hc (timerFuel_suff t limit hs)

theorem timerFuel_zero_of_not_lt {t : Timer} {limit : ℚ} (hs : 0 < t.step)
    (h : ¬ t.current < limit) : timerFuel t limit = 0 := by
  unfold timerFuel
  have h1 : (limit - t.current) / t.step ≤ 0 := by
    apply div_nonpos_of_nonpos_of_nonneg <;> linarith
  have h2 : ⌈(limit - t.current) / t.step⌉ ≤ (0 : ℤ) :=
    Int.ceil_le.mpr (by exact_mod_cast h1)
  omega

theorem timerFuel_succ {t : Timer} {limit : ℚ} (hs : 0 < t.step)
    (h : t.current < limit) :
    timerFuel t limit = timerFuel ⟨t.current + t.step, t.step⟩ limit + 1 := by
  unfold timerFuel
  have hdiv : (limit - (t.current + t.step)) / t.step
      = (limit - t.current) / t.step - 1 := by
    field_simp
    ring
  have hceil : ⌈(limit - (t.current + t.step)) / t.step⌉
      = ⌈(limit - t.current) / t.step⌉ - 1 := by
    rw [hdiv, Int.ceil_sub_one]
  have hpos : 0 < ⌈(limit - t.current) / t.step⌉ :=
    Int.ceil_pos.mpr (div_pos (by linarith) hs)
  show (⌈(limit - t.current) / t.step⌉).toNat
      = (⌈(limit - (t.current + t.step)) / t.step⌉).toNat + 1
  rw [hceil]
  omega

/-- The characteristic (source-loop) equation of `Timer.run`: with a
positive step, the fuelled loop is exactly the recursion performed by
`TimerIter::next` run to exhaustion. -/
theorem Timer.run_eq (t : Timer) (limit : ℚ) (hs : 0 < t.step) :
    t.run limit
      = if t.current < limit
        then ((t.current :: (Timer.run ⟨t.current + t.step, t.step⟩ limit).1,
               (Timer.run ⟨t.current + t.step, t.step⟩ limit).2))
        else ([], ⟨t.current - limit, t.step⟩) := by
  by_cases hc : t.current < limit
  · rw [if_pos hc]
    unfold Timer.run
    rw [timerFuel_succ hs hc]
    simp [timerLoop, hc]
  · rw [if_neg hc]
    unfold Timer.run
    rw [timerFuel_zero_of_not_lt hs hc]
    simp [timerLoop]


/-! ### `fast_forward` lemmas and claim C7 -/

theorem EPSILON_pos : (0 : ℚ) < EPSILON := by decide

theorem ratTrunc_le_of_nonneg {x : ℚ} (h : 0 ≤ x) :
    ((ratTrunc x : ℤ) : ℚ) ≤ x := by
  rw [ratTrunc, if_pos h]
  exact Int.floor_le x

theorem sub_ratTrunc_lt_one (x : ℚ) : x - ((ratTrunc x : ℤ) : ℚ) < 1 := by
  rw [ratTrunc]
  by_cases h : 0 ≤ x
  · rw [if_pos h]
    have := Int.sub_one_lt_floor x
    linarith
  · rw [if_neg h]
    have := Int.le_ceil x
    linarith

theorem Timer.fast_forward_step (t : Timer) (limit : ℚ) :
    (t.fast_forward limit).2.step = t.step := by
  unfold Timer.fast_forward
  split <;> rfl

theorem Timer.fast_forward_current_pos {t : Timer} (limit : ℚ)
    (h : EPSILON ≤ t.step) : 0 < (t.fast_forward limit).2.current := by
  have hs : 0 < t.step := lt_of_lt_of_le EPSILON_pos h
  unfold Timer.fast_forward
  rw [if_pos h]
  simp only
  set rest := limit - t.current with hrest
  have hx : rest = rest / t.step * t.step := by
    field_simp
  have h1 : rest / t.step - ((ratTrunc (rest / t.step) : ℤ) : ℚ) < 1 :=
    sub_ratTrunc_lt_one _
  have h2 : rest - ((ratTrunc (rest / t.step) : ℤ) : ℚ) * t.step < t.step := by
    calc rest - ((ratTrunc (rest / t.step) : ℤ) : ℚ) * t.step
        = (rest / t.step - ((ratTrunc (rest / t.step) : ℤ) : ℚ)) * t.step := by
          rw [sub_mul]
          rw [← hx]
      _ < 1 * t.step := by
          exact mul_lt_mul_of_pos_right h1 hs
      _ = t.step := one_mul _
  linarith

theorem Timer.fast_forward_current_nonneg {t : Timer} (limit : ℚ)
    (h : 0 ≤ t.current) : 0 ≤ (t.fast_forward limit).2.current := by
  by_cases he : EPSILON ≤ t.step
  · exact le_of_lt (Timer.fast_forward_current_pos limit he)
  · unfold Timer.fast_forward
    rw [if_neg he]
    exact h

/-- Claim C7 (corrected).  For a timer whose step passes the source's
`f32::EPSILON` guard, when `current < limit` and `limit - current` is not
an exact whole number of steps, `Timer::fast_forward` leaves `current` in
exactly the state that running the bounded event iterator to exhaustion
leaves it in, and it returns **one fewer** than the number of timestamps
that iteration yields. -/
theorem claimC7_fast_forward (t : Timer) (limit : ℚ)
    (hs : EPSILON ≤ t.step) (hc : t.current < limit)
    (hnm : ∀ k : ℕ, limit - t.current ≠ (k : ℚ) * t.step) :
    (t.fast_forward limit).2 = (t.run limit).2 ∧
    (t.fast_forward limit).1 + 1 = ((t.run limit).1.length : ℤ) := by
  have hs0 : 0 < t.step := lt_of_lt_of_le EPSILON_pos hs
  set n : ℕ := (t.run limit).1.length with hn
  set fin : ℚ := (t.run limit).2.current with hfin
  have hfe : fin = t.current + (n : ℚ) * t.step - limit := Timer.run_final t limit
  have hf0 : 0 ≤ fin := Timer.run_final_nonneg hs0
  have hfs : fin < t.step := Timer.run_final_lt_step hs0 hc
  have hfne : fin ≠ 0 := by
    intro h0
    exact hnm n (by rw [h0] at hfe; linarith)
  have hfpos : 0 < fin := lt_of_le_of_ne hf0 (Ne.symm hfne)
  have hn1 : 1 ≤ n := by
    rcases Nat.eq_zero_or_pos n with h0 | h1
    · exfalso
      rw [h0] at hfe
      push_cast at hfe
      linarith
    · exact h1
  set rest : ℚ := limit - t.current with hrest
  have hre : rest = (n : ℚ) * t.step - fin := by
    rw [hrest, hfe]
    ring
  have hdiv : rest / t.step = (n : ℚ) - fin / t.step := by
    rw [hre]
    field_simp
  have hq1 : (0 : ℚ) < fin / t.step := div_pos hfpos hs0
  have hq2 : fin / t.step < 1 := (div_lt_one hs0).mpr hfs
  have hfloor : ⌊rest / t.step⌋ = (n : ℤ) - 1 := by
    rw [Int.floor_eq_iff]
    constructor
    · push_cast
      rw [hdiv]
      linarith
    · push_cast
      rw [hdiv]
      linarith
  have hx0 : 0 ≤ rest / t.step := by
    rw [hdiv]
    have : (1 : ℚ) ≤ (n : ℚ) := by exact_mod_cast hn1
    linarith
  have htr : ratTrunc (rest / t.step) = (n : ℤ) - 1 := by
    rw [ratTrunc, if_pos hx0, hfloor]
  unfold Timer.fast_forward
  rw [if_pos hs]
  simp only
  rw [← hrest, htr]
  constructor
  · have hcur : t.step - (rest - (((n : ℤ) - 1 : ℤ) : ℚ) * t.step) = fin := by
      push_cast
      rw [hre]
      ring
    have : (t.run limit).2 = ⟨fin, t.step⟩ := by
      have h1 := Timer.run_step t limit
      cases h : (t.run limit).2 with
      | mk c st =>
        rw [h] at h1
        simp only at h1
        have h2 : c = fin := by rw [hfin, h]
        rw [h1, h2]
    rw [this, hcur]
  · omega

/-- Witness for C7 at a concrete timer: `current = 0`, `step = 4`,
`limit = 10` (so iteration yields `0, 4, 8` and carries `2` over). -/
theorem claimC7_fast_forward_witness :
    ((EPSILON ≤ (4 : ℚ)) ∧ ((0 : ℚ) < 10) ∧ (∀ k : ℕ, (10 : ℚ) - 0 ≠ (k : ℚ) * 4)) ∧
    ((Timer.fast_forward ⟨0, 4⟩ 10).2 = (Timer.run ⟨0, 4⟩ 10).2 ∧
     (Timer.fast_forward ⟨0, 4⟩ 10).1 + 1 = ((Timer.run ⟨0, 4⟩ 10).1.length : ℤ)) := by
  have h1 : EPSILON ≤ (4 : ℚ) := by decide
  have h2 : (0 : ℚ) < 10 := by norm_num
  have h3 : ∀ k : ℕ, (10 : ℚ) - 0 ≠ (k : ℚ) * 4 := by
    intro k h
    have : (10 : ℚ) = ((4 * k : ℕ) : ℚ) := by push_cast; linarith
    have h4 : (10 : ℕ) = 4 * k := by exact_mod_cast this
    omega
  exact ⟨⟨h1, h2, h3⟩, claimC7_fast_forward ⟨0, 4⟩ 10 h1 h2 h3⟩

/-- Counterexample to C7 as stated: at `current = 0`, `step = 4`,
`limit = 10` the iterator yields three timestamps (`0, 4, 8`) but
`fast_forward` returns `2`, so it does not return the number of yielded
timestamps (the final timer states do agree here, so the stated
conjunction fails on its count conjunct). -/
theorem claimC7_counterexample :
    ¬ ((Timer.fast_forward ⟨0, 4⟩ 10).2 = (Timer.run ⟨0, 4⟩ 10).2 ∧
       (Timer.fast_forward ⟨0, 4⟩ 10).1 = ((Timer.run ⟨0, 4⟩ 10).1.length : ℤ)) := by
  intro h
  have hrun : (Timer.run ⟨0, 4⟩ 10).1 = [0, 4, 8] := by
    have hf : timerFuel ⟨0, 4⟩ 10 = 3 := by
      have : ⌈((10 : ℚ) - 0) / 4⌉ = 3 := by
        norm_num [Int.ceil_eq_iff]
      unfold timerFuel
      rw [show ((10 : ℚ) - Timer.current ⟨0, 4⟩) / Timer.step ⟨0, 4⟩
            = ((10 : ℚ) - 0) / 4 from rfl, this]
      rfl
    unfold Timer.run
    rw [hf]
    norm_num [timerLoop]
  have hff : (Timer.fast_forward ⟨0, 4⟩ 10).1 = 2 := by
    have htr : ratTrunc (((10 : ℚ) - 0) / 4) = 2 := by
      rw [ratTrunc, if_pos (by norm_num)]
      norm_num [Int.floor_eq_iff]
    unfold Timer.fast_forward
    rw [if_pos (by decide)]
    simp only
    rw [show ((10 : ℚ) - Timer.current ⟨0, 4⟩) / Timer.step ⟨0, 4⟩
          = ((10 : ℚ) - 0) / 4 from rfl, htr]
  rw [hrun, hff] at h
  have := h.2
  norm_num at this


/-! ### Mixer lemmas and claim C5 -/

theorem cmpLe_refl (a : Option ℚ) : cmpLe a a = true := by
  cases a <;> simp [cmpLe]

theorem cmpLe_total (a b : Option ℚ) : cmpLe a b = true ∨ cmpLe b a = true := by
  cases a <;> cases b <;> simp [cmpLe] <;> exact le_total _ _

theorem cmpLe_trans {a b c : Option ℚ} (h1 : cmpLe a b = true)
    (h2 : cmpLe b c = true) : cmpLe a c = true := by
  cases a <;> cases b <;> cases c <;> simp [cmpLe] at * <;> exact le_trans h1 h2

theorem mixerSelect_cons (l : List Event) (ls : List (List Event)) :
    mixerSelect (l :: ls)
      = match mixerSelect ls with
        | none => some 0
        | some j =>
          if cmpLe (peekT l) (peekT (ls.getD j [])) then some 0 else some (j + 1) :=
  rfl

theorem mixerSelect_eq_none {srcs : List (List Event)} :
    mixerSelect srcs = none ↔ srcs = [] := by
  cases srcs with
  | nil => simp [mixerSelect]
  | cons l ls =>
    rw [mixerSelect_cons]
    constructor
    · intro h
      cases h' : mixerSelect ls with
      | none =>
        rw [h'] at h
        simp at h
      | some j =>
        rw [h'] at h
        dsimp only at h
        split_ifs at h <;> simp at h
    · intro h
      simp at h

theorem mixerSelect_lt {srcs : List (List Event)} {i : ℕ}
    (h : mixerSelect srcs = some i) : i < srcs.length := by
  induction srcs generalizing i with
  | nil => simp [mixerSelect] at h
  | cons l ls ih =>
    rw [mixerSelect_cons] at h
    cases h' : mixerSelect ls with
    | none =>
      rw [h'] at h
      dsimp only at h
      simp only [Option.some.injEq] at h
      subst h
      simp
    | some j =>
      rw [h'] at h
      dsimp only at h
      split_ifs at h
      · simp only [Option.some.injEq] at h
        subst h
        simp
      · simp only [Option.some.injEq] at h
        subst h
        have := ih h'
        simp only [List.length_cons]
        omega

theorem mixerSelect_min {srcs : List (List Event)} {i : ℕ}
    (h : mixerSelect srcs = some i) :
    ∀ j, j < srcs.length →
      cmpLe (peekT (srcs.getD i [])) (peekT (srcs.getD j [])) = true := by
  induction srcs generalizing i with
  | nil => simp [mixerSelect] at h
  | cons l ls ih =>
    rw [mixerSelect_cons] at h
    cases h' : mixerSelect ls with
    | none =>
      rw [h'] at h
      dsimp only at h
      simp only [Option.some.injEq] at h
      subst h
      have hnil : ls = [] := mixerSelect_eq_none.mp h'
      subst hnil
      intro j hj
      have hj0 : j = 0 := by simp at hj; omega
      subst hj0
      exact cmpLe_refl _
    | some j' =>
      rw [h'] at h
      dsimp only at h
      split_ifs at h with hcmp
      · simp only [Option.some.injEq] at h
        subst h
        intro j hj
        cases j with
        | zero => exact cmpLe_refl _
        | succ k =>
          simp only [List.getD_cons_zero, List.getD_cons_succ]
          have hk : k < ls.length := by simp at hj; omega
          exact cmpLe_trans hcmp (ih h' k hk)
      · simp only [Option.some.injEq] at h
        subst h
        intro j hj
        cases j with
        | zero =>
          simp only [List.getD_cons_zero, List.getD_cons_succ]
          rcases cmpLe_total (peekT l) (peekT (ls.getD j' [])) with hc | hc
          · exact absurd hc hcmp
          · exact hc
        | succ k =>
          simp only [List.getD_cons_succ]
          have hk : k < ls.length := by simp at hj; omega
          exact ih h' k hk

theorem mixerSelect_first {srcs : List (List Event)} {i : ℕ}
    (h : mixerSelect srcs = some i) :
    ∀ j, j < i →
      cmpLe (peekT (srcs.getD j [])) (peekT (srcs.getD i [])) = false := by
  induction srcs generalizing i with
  | nil => simp [mixerSelect] at h
  | cons l ls ih =>
    rw [mixerSelect_cons] at h
    cases h' : mixerSelect ls with
    | none =>
      rw [h'] at h
      dsimp only at h
      simp only [Option.some.injEq] at h
      subst h
      intro j hj
      omega
    | some j' =>
      rw [h'] at h
      dsimp only at h
      split_ifs at h with hcmp
      · simp only [Option.some.injEq] at h
        subst h
        intro j hj
        omega
      · simp only [Option.some.injEq] at h
        subst h
        intro j hj
        cases j with
        | zero =>
          simp only [List.getD_cons_zero, List.getD_cons_succ]
          exact Bool.eq_false_iff.mpr hcmp
        | succ k =>
          simp only [List.getD_cons_succ]
          exact ih h' k (by omega)

theorem mixerSelect_ne_nil {srcs : List (List Event)} {i : ℕ}
    (h : mixerSelect srcs = some i) {l : List Event} (hl : l ∈ srcs)
    (hne : l ≠ []) : srcs.getD i [] ≠ [] := by
  rcases List.mem_iff_getElem.mp hl with ⟨j, hj, rfl⟩
  have hmin := mixerSelect_min h j hj
  intro hcon
  rw [hcon] at hmin
  have : peekT srcs[j] ≠ none := by
    cases hh : srcs[j] with
    | nil => exact absurd hh hne
    | cons a t => simp [peekT, hh]
  cases hp : peekT srcs[j] with
  | none => exact this hp
  | some t =>
    rw [List.getD_eq_getElem _ _ hj] at hmin
    rw [hp] at hmin
    simp [peekT, cmpLe] at hmin

theorem mixerNext_eq_none {srcs : List (List Event)} :
    mixerNext srcs = none ↔ ∀ l ∈ srcs, l = [] := by
  constructor
  · intro h l hl
    by_contra hne
    unfold mixerNext at h
    cases hsel : mixerSelect srcs with
    | none =>
      rw [mixerSelect_eq_none.mp hsel] at hl
      simp at hl
    | some i =>
      rw [hsel] at h
      dsimp only at h
      have := mixerSelect_ne_nil hsel hl hne
      cases hg : srcs.getD i [] with
      | nil => exact this hg
      | cons e rest =>
        rw [hg] at h
        dsimp only at h
        simp at h
  · intro h
    unfold mixerNext
    cases hsel : mixerSelect srcs with
    | none => rfl
    | some i =>
      dsimp only
      have hi := mixerSelect_lt hsel
      have hnil : srcs.getD i [] = [] := by
        rw [List.getD_eq_getElem _ _ hi]
        exact h _ (List.getElem_mem hi)
      rw [hnil]

theorem mixerTotal_set {srcs : List (List Event)} {i : ℕ} {e : Event}
    {rest : List Event} (hi : i < srcs.length)
    (hg : srcs.getD i [] = e :: rest) :
    mixerTotal (srcs.set i rest) + 1 = mixerTotal srcs := by
  induction srcs generalizing i with
  | nil => simp at hi
  | cons l ls ih =>
    cases i with
    | zero =>
      simp only [List.getD_cons_zero] at hg
      subst hg
      simp [mixerTotal, List.set]
      ring
    | succ k =>
      simp only [List.getD_cons_succ] at hg
      have hk : k < ls.length := by simpa using hi
      have := ih hk hg
      simp only [mixerTotal, List.set, List.map_cons, List.sum_cons] at *
      omega

theorem mixerNext_spec {srcs : List (List Event)} {e : Event}
    {srcs' : List (List Event)} (h : mixerNext srcs = some (e, srcs')) :
    ∃ i, i < srcs.length ∧ (srcs.getD i []).head? = some e ∧
      srcs' = srcs.set i (srcs.getD i []).tail ∧
      mixerTotal srcs' + 1 = mixerTotal srcs ∧
      (∀ j, j < srcs.length → ∀ t, peekT (srcs.getD j []) = some t → e.1 ≤ t) ∧
      (∀ j, j < i → ∀ t, peekT (srcs.getD j []) = some t → e.1 < t) := by
  unfold mixerNext at h
  cases hsel : mixerSelect srcs with
  | none => rw [hsel] at h; simp at h
  | some i =>
    rw [hsel] at h
    dsimp only at h
    cases hg : srcs.getD i [] with
    | nil =>
      rw [hg] at h
      simp at h
    | cons e0 rest =>
      rw [hg] at h
      dsimp only at h
      simp only [Option.some.injEq, Prod.mk.injEq] at h
      obtain ⟨rfl, rfl⟩ := h
      have hi := mixerSelect_lt hsel
      refine ⟨i, hi, by rw [hg]; rfl, by rw [hg]; rfl,
        mixerTotal_set hi hg, ?_, ?_⟩
      · intro j hj t ht
        have := mixerSelect_min hsel j hj
        rw [ht, hg] at this
        simpa [peekT, cmpLe] using this
      · intro j hj t ht
        have := mixerSelect_first hsel j hj
        rw [ht, hg] at this
        have h2 : ¬ (t ≤ e0.1) := by simpa [peekT, cmpLe] using this
        exact lt_of_not_le h2

theorem mixerLoop_mem {x : Event} :
    ∀ (f : ℕ) (srcs : List (List Event)), x ∈ mixerLoop f srcs →
      ∃ l ∈ srcs, x ∈ l := by
  intro f
  induction f with
  | zero => intro srcs h; simp [mixerLoop] at h
  | succ f ih =>
    intro srcs h
    simp only [mixerLoop] at h
    cases hn : mixerNext srcs with
    | none => rw [hn] at h; simp at h
    | some p =>
      rw [hn] at h
      obtain ⟨e, srcs'⟩ := p
      simp only [List.mem_cons] at h
      obtain ⟨i, hi, hhead, hset, _, _, _⟩ := mixerNext_spec hn
      rcases h with rfl | h
      · refine ⟨srcs.getD i [], ?_, ?_⟩
        · rw [List.getD_eq_getElem _ _ hi]
          exact List.getElem_mem hi
        · exact List.mem_of_mem_head? hhead
      · obtain ⟨l', hl', hx⟩ := ih srcs' h
        rw [hset] at hl'
        rcases List.mem_or_eq_of_mem_set hl' with hmem | rfl
        · exact ⟨l', hmem, hx⟩
        · refine ⟨srcs.getD i [], ?_, List.mem_of_mem_tail hx⟩
          rw [List.getD_eq_getElem _ _ hi]
          exact List.getElem_mem hi

theorem mixerLoop_sorted :
    ∀ (f : ℕ) (srcs : List (List Event)),
      (∀ l ∈ srcs, l.Pairwise (fun a b : Event => a.1 ≤ b.1)) →
      (mixerLoop f srcs).Pairwise (fun a b : Event => a.1 ≤ b.1) := by
  intro f
  induction f with
  | zero => intro srcs _; simp [mixerLoop]
  | succ f ih =>
    intro srcs hsrt
    simp only [mixerLoop]
    cases hn : mixerNext srcs with
    | none => simp
    | some p =>
      obtain ⟨e, srcs'⟩ := p
      obtain ⟨i, hi, hhead, hset, _, hmin, _⟩ := mixerNext_spec hn
      have hisrc : srcs.getD i [] ∈ srcs := by
        rw [List.getD_eq_getElem _ _ hi]
        exact List.getElem_mem hi
      have hsrt' : ∀ l ∈ srcs', l.Pairwise (fun a b : Event => a.1 ≤ b.1) := by
        intro l hl
        rw [hset] at hl
        rcases List.mem_or_eq_of_mem_set hl with hmem | rfl
        · exact hsrt l hmem
        · exact (hsrt _ hisrc).tail
      refine List.Pairwise.cons ?_ (ih srcs' hsrt')
      intro x hx
      obtain ⟨l', hl', hxl⟩ := mixerLoop_mem f srcs' hx
      rw [hset] at hl'
      rcases List.mem_or_eq_of_mem_set hl' with hmem | rfl
      · rcases List.mem_iff_getElem.mp hmem with ⟨j, hj, rfl⟩
        cases hh : srcs[j] with
        | nil => rw [hh] at hxl; simp at hxl
        | cons a t =>
          have hpj : peekT (srcs.getD j []) = some a.1 := by
            rw [List.getD_eq_getElem _ _ hj, hh]
            rfl
          have hea := hmin j hj a.1 hpj
          rw [hh] at hxl
          rcases List.mem_cons.mp hxl with rfl | hxt
          · exact hea
          · have hp := hsrt _ hmem
            rw [hh] at hp
            have := (List.pairwise_cons.mp hp).1 x hxt
            linarith
      · have hp := hsrt _ hisrc
        cases hh : srcs.getD i [] with
        | nil => rw [hh] at hxl; simp at hxl
        | cons a t =>
          rw [hh] at hhead hp hxl
          simp only [List.head?_cons, Option.some.injEq] at hhead
          subst hhead
          exact (List.pairwise_cons.mp hp).1 x hxl

theorem mixerRun_mem {x : Event} {srcs : List (List Event)}
    (h : x ∈ mixerRun srcs) : ∃ l ∈ srcs, x ∈ l :=
  mixerLoop_mem _ _ h

theorem mixerRun_sorted {srcs : List (List Event)}
    (h : ∀ l ∈ srcs, l.Pairwise (fun a b : Event => a.1 ≤ b.1)) :
    (mixerRun srcs).Pairwise (fun a b : Event => a.1 ≤ b.1) :=
  mixerLoop_sorted _ _ h

theorem length_le_mixerTotal {l : List Event} {srcs : List (List Event)}
    (h : l ∈ srcs) : l.length ≤ mixerTotal srcs := by
  induction srcs with
  | nil => simp at h
  | cons a t ih =>
    rcases List.mem_cons.mp h with rfl | h
    · simp [mixerTotal]
    · have := ih h
      simp only [mixerTotal, List.map_cons, List.sum_cons] at *
      omega

theorem mixerRun_eq_nil_iff {srcs : List (List Event)} :
    mixerRun srcs = [] ↔ ∀ l ∈ srcs, l = [] := by
  constructor
  · intro h l hl
    by_contra hne
    have h1 : mixerNext srcs ≠ none := by
      intro hn
      exact hne (mixerNext_eq_none.mp hn l hl)
    have h2 : 1 ≤ mixerTotal srcs := by
      have := length_le_mixerTotal hl
      have : l.length ≠ 0 := by simpa using hne
      omega
    unfold mixerRun at h
    cases hf : mixerTotal srcs with
    | zero => omega
    | succ f =>
      rw [hf] at h
      simp only [mixerLoop] at h
      cases hn : mixerNext srcs with
      | none => exact h1 hn
      | some p => rw [hn] at h; simp at h
  · intro h
    have : mixerNext srcs = none := mixerNext_eq_none.mpr h
    unfold mixerRun
    cases mixerTotal srcs with
    | zero => rfl
    | succ f => simp [mixerLoop, this]

/-- Claim C5 (confirmed).  One mixer step yields the head of the source
with the minimal peeked timestamp; ties are broken in favour of the
earlier-inserted source (every strictly earlier source peeks strictly
greater); exhausted sources compare greater than non-exhausted ones (the
popped source is never empty while some source is non-empty, which the
`head? = some` conjunct witnesses); and the mixer terminates exactly when
every source is exhausted. -/
theorem claimC5_mixer (srcs : List (List Event)) :
    (mixerNext srcs = none ↔ ∀ l ∈ srcs, l = []) ∧
    (mixerRun srcs = [] ↔ ∀ l ∈ srcs, l = []) ∧
    (∀ e srcs', mixerNext srcs = some (e, srcs') →
      ∃ i, i < srcs.length ∧ (srcs.getD i []).head? = some e ∧
        srcs' = srcs.set i (srcs.getD i []).tail ∧
        (∀ j, j < srcs.length → ∀ t, peekT (srcs.getD j []) = some t → e.1 ≤ t) ∧
        (∀ j, j < i → ∀ t, peekT (srcs.getD j []) = some t → e.1 < t)) := by
  refine ⟨mixerNext_eq_none, mixerRun_eq_nil_iff, ?_⟩
  intro e srcs' h
  obtain ⟨i, hi, hhead, hset, _, hmin, hfirst⟩ := mixerNext_spec h
  exact ⟨i, hi, hhead, hset, hmin, hfirst⟩

/-- Witness for C5 at a concrete source list: three sources, the minimal
head sits in the second source. -/
theorem claimC5_mixer_witness :
    mixerNext [[((3 : ℚ), 1, 1)], [((1 : ℚ), 2, 2), ((5 : ℚ), 0, 0)], []]
        = some (((1 : ℚ), 2, 2),
            [[((3 : ℚ), 1, 1)], [((5 : ℚ), 0, 0)], []]) ∧
    ∃ i, i < 3 ∧
      (([[((3 : ℚ), 1, 1)], [((1 : ℚ), 2, 2), ((5 : ℚ), 0, 0)], []].getD i []).head?
        = some ((1 : ℚ), 2, 2)) := by
  have hnx : mixerNext [[((3 : ℚ), 1, 1)], [((1 : ℚ), 2, 2), ((5 : ℚ), 0, 0)], []]
      = some (((1 : ℚ), 2, 2),
          [[((3 : ℚ), 1, 1)], [((5 : ℚ), 0, 0)], []]) := by
    norm_num [mixerNext, mixerSelect, peekT, cmpLe, List.set]
  refine ⟨hnx, ?_⟩
  obtain ⟨i, hi, hhead, _, _, _⟩ :=
    (claimC5_mixer [[((3 : ℚ), 1, 1)], [((1 : ℚ), 2, 2), ((5 : ℚ), 0, 0)], []]).2.2
      ((1 : ℚ), 2, 2) [[((3 : ℚ), 1, 1)], [((5 : ℚ), 0, 0)], []] hnx
  exact ⟨i, by simpa using hi, hhead⟩


/-! ### Effect event soundness and the player invariant -/

/-- Timestamp ordering on events. -/
def evLe (a b : Event) : Prop := a.1 ≤ b.1

/-- Well-formedness of a timer state: non-negative phase and step. -/
def TimerInv (t : Timer) : Prop := 0 ≤ t.current ∧ 0 ≤ t.step

/-- Well-formedness of one voice's effect triple: well-formed timers, and
a positive step on every active unit (established by `start`, whose step
comes from `timer_interval` of a non-zero divisor). -/
def VoiceInv (v : VoiceFx) : Prop :=
  TimerInv v.1.timer ∧ TimerInv v.2.1.timer ∧ TimerInv v.2.2.timer ∧
  (v.1.active = true → 0 < v.1.timer.step) ∧
  (v.2.1.active = true → 0 < v.2.1.timer.step) ∧
  (v.2.2.cur < v.2.2.end_ → 0 < v.2.2.timer.step)

/-- Well-formedness of the buzzer state. -/
def BuzzerInv (b : SyncBuzzer) : Prop :=
  TimerInv b.timer ∧ (b.active = true → 0 < b.timer.step)

/-- The player state invariant: every effect unit is well-formed.  It
holds for a freshly parsed song and is preserved by
`produce_next_ay_frame` (claim C1), which is how arbitrary timer
carry-over between frames is captured. -/
def Inv (s : YmSong) : Prop :=
  (∀ v ∈ s.voice_effects, VoiceInv v) ∧ BuzzerInv s.buzzer

instance (t : Timer) : Decidable (TimerInv t) := by
  unfold TimerInv
  infer_instance

instance (v : VoiceFx) : Decidable (VoiceInv v) := by
  unfold VoiceInv
  infer_instance

instance (b : SyncBuzzer) : Decidable (BuzzerInv b) := by
  unfold BuzzerInv
  infer_instance

instance (s : YmSong) : Decidable (Inv s) := by
  unfold Inv
  exact instDecidableAnd

theorem voiceInv_default : VoiceInv default := by decide

theorem voiceInv_getD {ve : List VoiceFx} (h : ∀ v ∈ ve, VoiceInv v) (i : ℕ) :
    VoiceInv (ve.getD i default) := by
  by_cases hi : i < ve.length
  · rw [List.getD_eq_getElem _ _ hi]
    exact h _ (List.getElem_mem hi)
  · rw [List.getD_eq_default _ _ (le_of_not_lt hi)]
    exact voiceInv_default

theorem fxLoop_map_fst {σ : Type} (emit : ℚ → σ → Event) (nextSt : σ → σ)
    (step limit : ℚ) (hemit : ∀ c st, (emit c st).1 = c) :
    ∀ (f : ℕ) (c : ℚ) (st : σ),
      (fxLoop emit nextSt step limit f c st).1.map (fun e => e.1)
        = (timerLoop step limit f c).1 := by
  intro f
  induction f with
  | zero => intro c st; simp [fxLoop, timerLoop]
  | succ f ih =>
    intro c st
    by_cases hc : c < limit
    · simp only [fxLoop, timerLoop, if_pos hc, List.map_cons]
      rw [hemit, ih]
    · simp [fxLoop, timerLoop, hc]

theorem fxLoop_current {σ : Type} (emit : ℚ → σ → Event) (nextSt : σ → σ)
    (step limit : ℚ) :
    ∀ (f : ℕ) (c : ℚ) (st : σ),
      (fxLoop emit nextSt step limit f c st).2.1 = (timerLoop step limit f c).2 := by
  intro f
  induction f with
  | zero => intro c st; simp [fxLoop, timerLoop]
  | succ f ih =>
    intro c st
    by_cases hc : c < limit
    · simp only [fxLoop, timerLoop, if_pos hc]
      exact ih _ _
    · simp [fxLoop, timerLoop, hc]

theorem fxLoop_reg {σ : Type} (emit : ℚ → σ → Event) (nextSt : σ → σ)
    (step limit : ℚ) {reg : ℕ} (hreg : ∀ c st, (emit c st).2.1 = reg) :
    ∀ (f : ℕ) (c : ℚ) (st : σ), ∀ x ∈ (fxLoop emit nextSt step limit f c st).1,
      x.2.1 = reg := by
  intro f
  induction f with
  | zero => intro c st x hx; simp [fxLoop] at hx
  | succ f ih =>
    intro c st x hx
    by_cases hc : c < limit
    · simp only [fxLoop, if_pos hc, List.mem_cons] at hx
      rcases hx with rfl | hx
      · exact hreg _ _
      · exact ih _ _ x hx
    · simp [fxLoop, hc] at hx

theorem fxLoop_ts_mem {σ : Type} {emit : ℚ → σ → Event} {nextSt : σ → σ}
    {step limit : ℚ} (hemit : ∀ c st, (emit c st).1 = c) (hs : 0 ≤ step)
    (f : ℕ) (c : ℚ) (st : σ) :
    ∀ x ∈ (fxLoop emit nextSt step limit f c st).1, c ≤ x.1 ∧ x.1 < limit := by
  intro x hx
  have hmem : x.1 ∈ (timerLoop step limit f c).1 := by
    rw [← fxLoop_map_fst emit nextSt step limit hemit f c st]
    exact List.mem_map_of_mem _ hx
  exact timerLoop_mem hs f c _ hmem

theorem fxLoop_pairwise {σ : Type} {emit : ℚ → σ → Event} {nextSt : σ → σ}
    {step limit : ℚ} (hemit : ∀ c st, (emit c st).1 = c) (hs : 0 ≤ step)
    (f : ℕ) (c : ℚ) (st : σ) :
    (fxLoop emit nextSt step limit f c st).1.Pairwise evLe := by
  have h := @timerLoop_pairwise step limit hs f c
  rw [← fxLoop_map_fst emit nextSt step limit hemit f c st] at h
  exact (List.pairwise_map.mp h).imp (fun hab => hab)

theorem sv_iter_frame_sound (sv : SidVoice) (limit : ℚ) (reg : ℕ)
    (ht : TimerInv sv.timer) (ha : sv.active = true → 0 < sv.timer.step) :
    (∀ evs, (sv.iter_frame limit reg).1 = some evs →
        (∀ x ∈ evs, 0 ≤ x.1 ∧ x.1 < limit ∧ x.2.1 = reg) ∧ evs.Pairwise evLe) ∧
    TimerInv (sv.iter_frame limit reg).2.timer ∧
    (sv.iter_frame limit reg).2.active = sv.active ∧
    (sv.iter_frame limit reg).2.timer.step = sv.timer.step := by
  unfold SidVoice.iter_frame
  by_cases hact : sv.active
  · rw [if_pos hact]
    have hstep := ha hact
    dsimp only
    have hemit : ∀ (c : ℚ) (st : Bool),
        ((fun ts cur => ((ts, reg, if cur then 0 else sv.vol) : Event)) c st).1 = c :=
      fun _ _ => rfl
    have hreg : ∀ (c : ℚ) (st : Bool),
        ((fun ts cur => ((ts, reg, if cur then 0 else sv.vol) : Event)) c st).2.1 = reg :=
      fun _ _ => rfl
    refine ⟨?_, ?_, rfl, rfl⟩
    · intro evs hevs
      simp only [Option.some.injEq] at hevs
      subst hevs
      constructor
      · intro x hx
        have h1 := fxLoop_ts_mem hemit (le_of_lt hstep) _ _ _ x hx
        have h2 := fxLoop_reg _ _ _ _ hreg _ _ _ x hx
        exact ⟨le_trans ht.1 h1.1, h1.2, h2⟩
      · exact fxLoop_pairwise hemit (le_of_lt hstep) _ _ _
    · constructor
      · show (0 : ℚ) ≤ (fxLoop _ _ _ _ _ _ _).2.1
        rw [fxLoop_current]
        exact Timer.run_final_nonneg (t := sv.timer) hstep
      · exact le_of_lt hstep
  · rw [if_neg hact]
    dsimp only
    refine ⟨fun evs hevs => by simp at hevs, ?_, rfl, ?_⟩
    · constructor
      · exact Timer.fast_forward_current_nonneg limit ht.1
      · rw [Timer.fast_forward_step]
        exact ht.2
    · exact Timer.fast_forward_step _ _

theorem ss_iter_frame_sound (ss : SinusSid) (limit : ℚ) (reg : ℕ)
    (ht : TimerInv ss.timer) (ha : ss.active = true → 0 < ss.timer.step) :
    (∀ evs, (ss.iter_frame limit reg).1 = some evs →
        (∀ x ∈ evs, 0 ≤ x.1 ∧ x.1 < limit ∧ x.2.1 = reg) ∧ evs.Pairwise evLe) ∧
    TimerInv (ss.iter_frame limit reg).2.timer ∧
    (ss.iter_frame limit reg).2.active = ss.active ∧
    (ss.iter_frame limit reg).2.timer.step = ss.timer.step := by
  unfold SinusSid.iter_frame
  by_cases hact : ss.active
  · rw [if_pos hact]
    have hstep := ha hact
    dsimp only
    have hemit : ∀ (c : ℚ) (st : ℕ),
        ((fun ts ph => ((ts, reg, sinus_sid ph ss.amplitude) : Event)) c st).1 = c :=
      fun _ _ => rfl
    have hreg : ∀ (c : ℚ) (st : ℕ),
        ((fun ts ph => ((ts, reg, sinus_sid ph ss.amplitude) : Event)) c st).2.1 = reg :=
      fun _ _ => rfl
    refine ⟨?_, ?_, rfl, rfl⟩
    · intro evs hevs
      simp only [Option.some.injEq] at hevs
      subst hevs
      constructor
      · intro x hx
        have h1 := fxLoop_ts_mem hemit (le_of_lt hstep) _ _ _ x hx
        have h2 := fxLoop_reg _ _ _ _ hreg _ _ _ x hx
        exact ⟨le_trans ht.1 h1.1, h1.2, h2⟩
      · exact fxLoop_pairwise hemit (le_of_lt hstep) _ _ _
    · constructor
      · show (0 : ℚ) ≤ (fxLoop _ _ _ _ _ _ _).2.1
        rw [fxLoop_current]
        exact Timer.run_final_nonneg (t := ss.timer) hstep
      · exact le_of_lt hstep
  · rw [if_neg hact]
    exact ⟨fun evs hevs => by simp at hevs, ht, rfl, rfl⟩

theorem bz_iter_frame_sound (b : SyncBuzzer) (limit : ℚ)
    (ht : TimerInv b.timer) (ha : b.active = true → 0 < b.timer.step) :
    (∀ evs, (b.iter_frame limit).1 = some evs →
        (∀ x ∈ evs, 0 ≤ x.1 ∧ x.1 < limit ∧ x.2.1 = ENV_REG) ∧ evs.Pairwise evLe) ∧
    BuzzerInv (b.iter_frame limit).2 := by
  unfold SyncBuzzer.iter_frame
  by_cases hact : b.active
  · rw [if_pos hact]
    have hstep := ha hact
    dsimp only
    refine ⟨?_, ?_⟩
    · intro evs hevs
      simp only [Option.some.injEq] at hevs
      subst hevs
      constructor
      · intro x hx
        rcases List.mem_map.mp hx with ⟨ts, hts, rfl⟩
        have h1 := Timer.run_mem (le_of_lt hstep) ts hts
        exact ⟨le_trans ht.1 h1.1, h1.2, rfl⟩
      · refine List.pairwise_map.mpr ?_
        exact (Timer.run_pairwise (le_of_lt hstep)).imp (fun hab => hab)
    · refine ⟨⟨Timer.run_final_nonneg hstep, ?_⟩, ?_⟩
      · rw [Timer.run_step]
        exact ht.2
      · intro _
        rw [Timer.run_step]
        exact hstep
  · rw [if_neg hact]
    exact ⟨fun evs hevs => by simp at hevs, ht, ha⟩


theorem ddLoop_of_not_lt {step limit : ℚ} {reg endVol : ℕ} (f : ℕ) {c : ℚ}
    (samples : List ℕ) (h : ¬ c < limit) :
    ddLoop step limit reg endVol f c samples = ([], c - limit, samples.length) := by
  cases f <;> cases samples <;> simp [ddLoop, h]

theorem ddLoop_mem {step limit : ℚ} {reg endVol : ℕ} (hs : 0 ≤ step) :
    ∀ (f : ℕ) (c : ℚ) (samples : List ℕ),
      ∀ x ∈ (ddLoop step limit reg endVol f c samples).1,
        c ≤ x.1 ∧ x.1 < limit ∧ x.2.1 = reg := by
  intro f
  induction f with
  | zero => intro c samples x hx; simp [ddLoop] at hx
  | succ f ih =>
    intro c samples x hx
    by_cases hc : c < limit
    · cases samples with
      | cons vol rest =>
        simp only [ddLoop, if_pos hc, List.mem_cons] at hx
        rcases hx with rfl | hx
        · exact ⟨le_refl _, hc, rfl⟩
        · obtain ⟨h1, h2, h3⟩ := ih (c + step) rest x hx
          exact ⟨le_trans (by linarith) h1, h2, h3⟩
      | nil =>
        simp only [ddLoop, if_pos hc, List.mem_cons] at hx
        rcases hx with rfl | hx
        · exact ⟨le_refl _, hc, rfl⟩
        · rw [ddLoop_of_not_lt f [] (lt_irrefl limit)] at hx
          simp at hx
    · rw [ddLoop_of_not_lt _ _ hc] at hx
      simp at hx

theorem ddLoop_pairwise {step limit : ℚ} {reg endVol : ℕ} (hs : 0 ≤ step) :
    ∀ (f : ℕ) (c : ℚ) (samples : List ℕ),
      (ddLoop step limit reg endVol f c samples).1.Pairwise evLe := by
  intro f
  induction f with
  | zero => intro c samples; simp [ddLoop]
  | succ f ih =>
    intro c samples
    by_cases hc : c < limit
    · cases samples with
      | cons vol rest =>
        simp only [ddLoop, if_pos hc]
        refine List.Pairwise.cons ?_ (ih (c + step) rest)
        intro x hx
        have := (ddLoop_mem hs f (c + step) rest x hx).1
        show (c : ℚ) ≤ x.1
        linarith
      | nil =>
        simp only [ddLoop, if_pos hc]
        rw [ddLoop_of_not_lt f [] (lt_irrefl limit)]
        simp [evLe]
    · rw [ddLoop_of_not_lt _ _ hc]
      simp

theorem ddLoop_final_nonneg {step limit : ℚ} {reg endVol : ℕ} (hs : 0 ≤ step) :
    ∀ (f : ℕ) (c : ℚ) (samples : List ℕ), limit ≤ c + (f : ℚ) * step →
      0 ≤ (ddLoop step limit reg endVol f c samples).2.1 := by
  intro f
  induction f with
  | zero =>
    intro c samples hf
    push_cast at hf
    simp only [ddLoop]
    linarith
  | succ f ih =>
    intro c samples hf
    by_cases hc : c < limit
    · cases samples with
      | cons vol rest =>
        simp only [ddLoop, if_pos hc]
        refine ih (c + step) rest ?_
        push_cast at hf ⊢
        linarith
      | nil =>
        simp only [ddLoop, if_pos hc]
        rw [ddLoop_of_not_lt f [] (lt_irrefl limit)]
        simp
    · rw [ddLoop_of_not_lt _ _ hc]
      simp only
      linarith [not_lt.mp hc]

theorem dd_iter_frame_sound (dd : DigiDrum) (limit : ℚ) (reg : ℕ)
    (dd_samples : List ℕ) (endVol : ℕ) (ht : TimerInv dd.timer)
    (ha : dd.cur < dd.end_ → 0 < dd.timer.step) :
    (∀ evs, (dd.iter_frame limit reg dd_samples endVol).1 = some evs →
        (∀ x ∈ evs, 0 ≤ x.1 ∧ x.1 < limit ∧ x.2.1 = reg) ∧ evs.Pairwise evLe) ∧
    TimerInv (dd.iter_frame limit reg dd_samples endVol).2.timer ∧
    ((dd.iter_frame limit reg dd_samples endVol).2.cur
        < (dd.iter_frame limit reg dd_samples endVol).2.end_ →
      0 < (dd.iter_frame limit reg dd_samples endVol).2.timer.step) := by
  unfold DigiDrum.iter_frame
  by_cases hact : dd.cur < dd.end_
  · rw [if_pos hact]
    have hstep := ha hact
    dsimp only
    refine ⟨?_, ⟨?_, le_of_lt hstep⟩, fun _ => hstep⟩
    · intro evs hevs
      simp only [Option.some.injEq] at hevs
      subst hevs
      constructor
      · intro x hx
        obtain ⟨h1, h2, h3⟩ := ddLoop_mem (le_of_lt hstep) _ _ _ x hx
        exact ⟨le_trans ht.1 h1, h2, h3⟩
      · exact ddLoop_pairwise (le_of_lt hstep) _ _ _
    · show (0 : ℚ) ≤ (ddLoop _ _ _ _ _ _ _).2.1
      exact ddLoop_final_nonneg (le_of_lt hstep) _ _ _
        (timerFuel_suff dd.timer limit hstep)
  · rw [if_neg hact]
    exact ⟨fun evs hevs => by simp at hevs, ht, ha⟩


theorem voiceFrame_sound (v : VoiceFx) (limit : ℚ) (reg : ℕ) (samples : List ℕ)
    (endVol : ℕ) (hv : VoiceInv v) :
    (∀ evs, iter_select (voiceFrame v limit reg samples endVol).1 = some evs →
        (∀ x ∈ evs, 0 ≤ x.1 ∧ x.1 < limit ∧ x.2.1 = reg) ∧ evs.Pairwise evLe) ∧
    VoiceInv (voiceFrame v limit reg samples endVol).2 := by
  obtain ⟨ht1, ht2, ht3, ha1, ha2, ha3⟩ := hv
  have hS := sv_iter_frame_sound v.1 limit reg ht1 ha1
  have hSS := ss_iter_frame_sound v.2.1 limit reg ht2 ha2
  have hDD := dd_iter_frame_sound v.2.2 limit reg samples endVol ht3 ha3
  simp only [voiceFrame]
  cases h1 : (v.1.iter_frame limit reg).1 with
  | some evs1 =>
    dsimp only
    constructor
    · intro evs hevs
      simp only [iter_select, Option.some.injEq] at hevs
      subst hevs
      exact hS.1 evs1 h1
    · exact ⟨hS.2.1, ht2, ht3,
        fun h => hS.2.2.2 ▸ ha1 (hS.2.2.1 ▸ h), ha2, ha3⟩
  | none =>
    dsimp only
    cases h2 : (v.2.1.iter_frame limit reg).1 with
    | some evs2 =>
      dsimp only
      constructor
      · intro evs hevs
        simp only [iter_select, Option.some.injEq] at hevs
        subst hevs
        exact hSS.1 evs2 h2
      · exact ⟨hS.2.1, hSS.2.1, ht3,
          fun h => hS.2.2.2 ▸ ha1 (hS.2.2.1 ▸ h),
          fun h => hSS.2.2.2 ▸ ha2 (hSS.2.2.1 ▸ h), ha3⟩
    | none =>
      dsimp only
      cases h3 : (v.2.2.iter_frame limit reg samples endVol).1 with
      | some evs3 =>
        dsimp only
        constructor
        · intro evs hevs
          simp only [iter_select, Option.some.injEq] at hevs
          subst hevs
          exact hDD.1 evs3 h3
        · exact ⟨hS.2.1, hSS.2.1, hDD.2.1,
            fun h => hS.2.2.2 ▸ ha1 (hS.2.2.1 ▸ h),
            fun h => hSS.2.2.2 ▸ ha2 (hSS.2.2.1 ▸ h), hDD.2.2⟩
      | none =>
        dsimp only
        constructor
        · intro evs hevs
          simp [iter_select] at hevs
        · exact ⟨hS.2.1, hSS.2.1, hDD.2.1,
            fun h => hS.2.2.2 ▸ ha1 (hS.2.2.1 ▸ h),
            fun h => hSS.2.2.2 ▸ ha2 (hSS.2.2.1 ▸ h), hDD.2.2⟩

/-! ### Invariant preservation through the version dispatch -/

theorem timer_interval_pos (s : YmSong) (hck : 0 < s.chipset_frequency)
    {d : ℕ} (hd : 0 < d) : 0 < s.timer_interval d := by
  unfold YmSong.timer_interval YmSong.clock_frequency MFP_TIMER_FREQUENCY
  have h1 : (0 : ℚ) < (s.chipset_frequency : ℚ) := by exact_mod_cast hck
  have h2 : (0 : ℚ) < (d : ℚ) := by exact_mod_cast hd
  positivity

theorem calculate_timer_divisor_pos {p d n : ℕ}
    (h : calculate_timer_divisor p d = some n) : 0 < n := by
  simp only [calculate_timer_divisor] at h
  split_ifs at h with h0
  simp only [Option.some.injEq] at h
  rw [← h]
  exact Nat.pos_of_ne_zero h0

theorem updateVoice_inv {ve : List VoiceFx} {chan : ℕ} {f : VoiceFx → VoiceFx}
    (hve : ∀ v ∈ ve, VoiceInv v) (hf : ∀ v, VoiceInv v → VoiceInv (f v)) :
    ∀ v ∈ updateVoice ve chan f, VoiceInv v := by
  intro v hvm
  rcases List.mem_or_eq_of_mem_set hvm with h | rfl
  · exact hve v h
  · exact hf _ (voiceInv_getD hve chan)

theorem fx_update_inv (s : YmSong) (fx : FxType) (chan divisor vol : ℕ)
    (ve : List VoiceFx) (bz : SyncBuzzer) (hve : ∀ v ∈ ve, VoiceInv v)
    (hbz : BuzzerInv bz) (hstep : 0 < s.timer_interval divisor) :
    (∀ v ∈ (fx_update s fx chan divisor vol ve bz).1, VoiceInv v) ∧
    BuzzerInv (fx_update s fx chan divisor vol ve bz).2 := by
  cases fx with
  | SidVoice =>
    simp only [fx_update]
    refine ⟨updateVoice_inv hve ?_, hbz⟩
    intro v hv
    exact ⟨⟨hv.1.1, le_of_lt hstep⟩, hv.2.1, hv.2.2.1,
      fun _ => hstep, hv.2.2.2.2.1, hv.2.2.2.2.2⟩
  | DigiDrum =>
    simp only [fx_update]
    refine ⟨updateVoice_inv hve ?_, hbz⟩
    intro v hv
    exact ⟨hv.1, hv.2.1, ⟨le_refl 0, le_of_lt hstep⟩,
      hv.2.2.2.1, hv.2.2.2.2.1, fun _ => hstep⟩
  | SinusSid =>
    simp only [fx_update]
    refine ⟨updateVoice_inv hve ?_, hbz⟩
    intro v hv
    exact ⟨hv.1, ⟨hv.2.1.1, le_of_lt hstep⟩, hv.2.2.1,
      hv.2.2.2.1, fun _ => hstep, hv.2.2.2.2.2⟩
  | SyncBuzz =>
    simp only [fx_update]
    exact ⟨hve, ⟨⟨hbz.1.1, le_of_lt hstep⟩, fun _ => hstep⟩⟩

theorem play_ym2_inv (s : YmSong) (hck : 0 < s.chipset_frequency)
    (hve : ∀ v ∈ s.voice_effects, VoiceInv v) (hbz : BuzzerInv s.buzzer) :
    (∀ v ∈ (play_ym2_frame s).2.1, VoiceInv v) ∧
    BuzzerInv (play_ym2_frame s).2.2 := by
  simp only [play_ym2_frame]
  refine ⟨?_, hbz⟩
  by_cases h80 : (s.frames.getD s.cursor default).data.getD 10 0 &&& 0x80 = 0x80
  · rw [if_pos h80]
    cases hget : YM2_SAMPLE_ENDS.get?
        ((s.frames.getD s.cursor default).data.getD 10 0 &&& 0x7f) with
    | none => exact hve
    | some end_ =>
      dsimp only
      by_cases hp : 4 * (s.frames.getD s.cursor default).data.getD ENV_PER_COARSE_REG 0 ≠ 0
      · rw [if_pos hp]
        refine updateVoice_inv hve ?_
        intro v hv
        have hstep : 0 < s.timer_interval
            (4 * (s.frames.getD s.cursor default).data.getD ENV_PER_COARSE_REG 0) :=
          timer_interval_pos s hck (Nat.pos_of_ne_zero hp)
        exact ⟨hv.1, hv.2.1, ⟨le_refl 0, le_of_lt hstep⟩,
          hv.2.2.2.1, hv.2.2.2.2.1, fun _ => hstep⟩
      · rw [if_neg hp]
        exact hve
  · rw [if_neg h80]
    exact hve

theorem play_ym5_inv (s : YmSong) (hck : 0 < s.chipset_frequency)
    (hve : ∀ v ∈ s.voice_effects, VoiceInv v) (hbz : BuzzerInv s.buzzer) :
    (∀ v ∈ (play_ym5_frame s).2.1, VoiceInv v) ∧
    BuzzerInv (play_ym5_frame s).2.2 := by
  unfold play_ym5_frame
  dsimp only
  cases hts : ts_channel (s.frames.getD s.cursor default).fx0 with
  | none =>
    dsimp only [Option.bind]
    cases hdd : dd_channel (s.frames.getD s.cursor default).fx1 with
    | none => exact ⟨hve, hbz⟩
    | some chan =>
      dsimp only
      cases hdiv : (s.frames.getD s.cursor default).timer_divisor1 with
      | none => exact ⟨hve, hbz⟩
      | some div =>
        dsimp only [Option.map]
        exact fx_update_inv s FxType.DigiDrum chan div _ _ _ hve hbz
          (timer_interval_pos s hck (calculate_timer_divisor_pos hdiv))
  | some rc =>
    dsimp only [Option.bind]
    cases hdiv0 : (s.frames.getD s.cursor default).timer_divisor0 with
    | none =>
      dsimp only [Option.map]
      cases hdd : dd_channel (s.frames.getD s.cursor default).fx1 with
      | none => exact ⟨hve, hbz⟩
      | some chan =>
        dsimp only
        cases hdiv : (s.frames.getD s.cursor default).timer_divisor1 with
        | none => exact ⟨hve, hbz⟩
        | some div =>
          dsimp only [Option.map]
          exact fx_update_inv s FxType.DigiDrum chan div _ _ _ hve hbz
            (timer_interval_pos s hck (calculate_timer_divisor_pos hdiv))
    | some div0 =>
      dsimp only [Option.map]
      have hve1 : ∀ v ∈ (if rc.1 then
          updateVoice s.voice_effects rc.2 fun v => (v.1.reset, v.2.1, v.2.2)
          else s.voice_effects), VoiceInv v := by
        split_ifs
        · refine updateVoice_inv hve ?_
          intro v hv
          exact ⟨⟨le_refl 0, hv.1.2⟩, hv.2.1, hv.2.2.1,
            hv.2.2.2.1, hv.2.2.2.2.1, hv.2.2.2.2.2⟩
        · exact hve
      have h1 := fx_update_inv s FxType.SidVoice rc.2 div0
        ((s.frames.getD s.cursor default).vol rc.2) _ s.buzzer hve1 hbz
        (timer_interval_pos s hck (calculate_timer_divisor_pos hdiv0))
      cases hdd : dd_channel (s.frames.getD s.cursor default).fx1 with
      | none => exact h1
      | some chan =>
        dsimp only
        cases hdiv : (s.frames.getD s.cursor default).timer_divisor1 with
        | none => exact h1
        | some div =>
          dsimp only [Option.map]
          exact fx_update_inv s FxType.DigiDrum chan div _ _ _ h1.1 h1.2
            (timer_interval_pos s hck (calculate_timer_divisor_pos hdiv))

theorem play_ym6_inv (s : YmSong) (hck : 0 < s.chipset_frequency)
    (hve : ∀ v ∈ s.voice_effects, VoiceInv v) (hbz : BuzzerInv s.buzzer) :
    (∀ v ∈ (play_ym6_frame s).2.1, VoiceInv v) ∧
    BuzzerInv (play_ym6_frame s).2.2 := by
  unfold play_ym6_frame
  dsimp only
  have step1 : ∀ (st : List VoiceFx × SyncBuzzer),
      (∀ v ∈ st.1, VoiceInv v) → BuzzerInv st.2 →
      ∀ (o : Option (FxType × ℕ)) (dv : Option ℕ),
        (∀ d, dv = some d → 0 < d) →
        (∀ v ∈ (match o.bind fun fc => dv.map fun div =>
              (fc.1, fc.2, div, (s.frames.getD s.cursor default).vol fc.2) with
            | some (fx, chan, divisor, vol) => fx_update s fx chan divisor vol st.1 st.2
            | none => st).1, VoiceInv v) ∧
        BuzzerInv (match o.bind fun fc => dv.map fun div =>
              (fc.1, fc.2, div, (s.frames.getD s.cursor default).vol fc.2) with
            | some (fx, chan, divisor, vol) => fx_update s fx chan divisor vol st.1 st.2
            | none => st).2 := by
    intro st hst1 hst2 o dv hdv
    cases o with
    | none => exact ⟨hst1, hst2⟩
    | some fc =>
      cases dv with
      | none => exact ⟨hst1, hst2⟩
      | some d =>
        dsimp only [Option.bind, Option.map]
        exact fx_update_inv s fc.1 fc.2 d _ _ _ hst1 hst2
          (timer_interval_pos s hck (hdv d rfl))
  have h1 := step1 (s.voice_effects, s.buzzer) hve hbz
    (fx6_channel (s.frames.getD s.cursor default).fx0)
    (s.frames.getD s.cursor default).timer_divisor0
    (fun d hd => calculate_timer_divisor_pos hd)
  exact step1 _ h1.1 h1.2
    (fx6_channel (s.frames.getD s.cursor default).fx1)
    (s.frames.getD s.cursor default).timer_divisor1
    (fun d hd => calculate_timer_divisor_pos hd)

theorem dispatchFrame_inv (s : YmSong) (hck : 0 < s.chipset_frequency)
    (hve : ∀ v ∈ s.voice_effects, VoiceInv v) (hbz : BuzzerInv s.buzzer) :
    (∀ v ∈ (dispatchFrame s).2.1, VoiceInv v) ∧
    BuzzerInv (dispatchFrame s).2.2 := by
  unfold dispatchFrame
  cases s.version with
  | Ym2 => exact play_ym2_inv s hck hve hbz
  | Ym3 => exact ⟨hve, hbz⟩
  | Ym4 => exact play_ym5_inv s hck hve hbz
  | Ym5 => exact play_ym5_inv s hck hve hbz
  | Ym6 => exact play_ym6_inv s hck hve hbz


theorem play_ym3_frame_evs (s : YmSong) :
    ∀ e ∈ play_ym3_frame s, e.1 = 0 ∧ 11 ≤ e.2.1 ∧ e.2.1 ≤ 13 := by
  intro e he
  simp only [play_ym3_frame, List.mem_append, List.mem_cons, List.not_mem_nil,
    or_false] at he
  rcases he with (rfl | rfl) | he
  · norm_num [ENV_PER_FINE_REG]
  · norm_num [ENV_PER_COARSE_REG]
  · split_ifs at he
    · simp only [List.mem_cons, List.not_mem_nil, or_false] at he
      subst he
      norm_num [ENV_REG]
    · simp at he

theorem play_ym2_frame_evs (s : YmSong) :
    ∀ e ∈ (play_ym2_frame s).1, e.1 = 0 ∧ 11 ≤ e.2.1 ∧ e.2.1 ≤ 13 := by
  intro e he
  simp only [play_ym2_frame] at he
  split_ifs at he
  · simp only [List.mem_cons, List.not_mem_nil, or_false] at he
    rcases he with rfl | rfl | rfl
    · norm_num [ENV_PER_FINE_REG]
    · norm_num [ENV_PER_COARSE_REG]
    · norm_num [ENV_REG]
  · simp at he

theorem dispatchFrame_evs (s : YmSong) :
    ∀ e ∈ (dispatchFrame s).1, e.1 = 0 ∧ 11 ≤ e.2.1 ∧ e.2.1 ≤ 13 := by
  unfold dispatchFrame
  cases s.version with
  | Ym2 => exact play_ym2_frame_evs s
  | Ym3 => exact play_ym3_frame_evs s
  | Ym4 => exact play_ym3_frame_evs s
  | Ym5 => exact play_ym3_frame_evs s
  | Ym6 => exact play_ym3_frame_evs s

theorem stopTransient_inv {ve : List VoiceFx} (h : ∀ v ∈ ve, VoiceInv v) :
    ∀ v ∈ stopTransient ve, VoiceInv v := by
  intro v hv
  rcases List.mem_map.mp hv with ⟨w, hw, rfl⟩
  have := h w hw
  exact ⟨this.1, this.2.1, this.2.2.1, fun hc => by simp [SidVoice.stop] at hc,
    fun hc => by simp [SinusSid.stop] at hc, this.2.2.2.2.2⟩

theorem buzzerStop_inv {b : SyncBuzzer} (h : BuzzerInv b) : BuzzerInv b.stop :=
  ⟨h.1, fun hc => by simp [SyncBuzzer.stop] at hc⟩

theorem frame_cycles_pos (s : YmSong) (hck : 0 < s.chipset_frequency)
    (hff : 0 < s.frame_frequency) : 0 < s.frame_cycles := by
  unfold YmSong.frame_cycles YmSong.clock_frequency
  have h1 : (0 : ℚ) < (s.chipset_frequency : ℚ) := by exact_mod_cast hck
  have h2 : (0 : ℚ) < (s.frame_frequency : ℚ) := by exact_mod_cast hff
  positivity

theorem pairwise_of_ts_zero {l : List Event} (h : ∀ e ∈ l, e.1 = 0) :
    l.Pairwise evLe := by
  induction l with
  | nil => exact List.Pairwise.nil
  | cons a t ih =>
    refine List.Pairwise.cons ?_ (ih fun e he => h e (List.mem_cons_of_mem a he))
    intro b hb
    show a.1 ≤ b.1
    rw [h a (List.mem_cons_self a t), h b (List.mem_cons_of_mem a hb)]

theorem t0_append_sorted {A B : List Event} (hA : ∀ e ∈ A, e.1 = 0)
    (hB : B.Pairwise evLe) (hB0 : ∀ e ∈ B, 0 ≤ e.1) :
    (A ++ B).Pairwise evLe := by
  refine List.pairwise_append.mpr ⟨pairwise_of_ts_zero hA, hB, ?_⟩
  intro a ha b hb
  show a.1 ≤ b.1
  rw [hA a ha]
  exact hB0 b hb


theorem frameEvents_sound (s : YmSong) (hck : 0 < s.chipset_frequency)
    (hff : 0 < s.frame_frequency) (hinv : Inv s) :
    (∀ e ∈ (frameEvents s).1, 0 ≤ e.1 ∧ e.1 < s.frame_cycles) ∧
    (frameEvents s).1.Pairwise evLe ∧
    (∀ v ∈ (frameEvents s).2.1, VoiceInv v) ∧
    BuzzerInv (frameEvents s).2.2 := by
  obtain ⟨hve, hbz⟩ := hinv
  have hfc : 0 < s.frame_cycles := frame_cycles_pos s hck hff
  simp only [frameEvents]
  set s0 : YmSong := { s with voice_effects := stopTransient s.voice_effects,
                              buzzer := s.buzzer.stop } with hs0
  set d := dispatchFrame s0 with hdeq
  set frame := s.frames.getD s.cursor default with hframe
  set fc := s.frame_cycles with hfceq
  have hd : (∀ v ∈ d.2.1, VoiceInv v) ∧ BuzzerInv d.2.2 :=
    dispatchFrame_inv s0 hck (stopTransient_inv hve) (buzzerStop_inv hbz)
  set w0 := voiceFrame (d.2.1.getD 0 default) fc VOL_A_REG s.dd_samples
    (frame.vol VOL_A_REG) with hw0e
  set w1 := voiceFrame (d.2.1.getD 1 default) fc (VOL_A_REG + 1) s.dd_samples
    (frame.vol (VOL_A_REG + 1)) with hw1e
  set w2 := voiceFrame (d.2.1.getD 2 default) fc (VOL_A_REG + 2) s.dd_samples
    (frame.vol (VOL_A_REG + 2)) with hw2e
  set bz := d.2.2.iter_frame fc with hbze
  have hw0 := voiceFrame_sound (d.2.1.getD 0 default) fc VOL_A_REG s.dd_samples
    (frame.vol VOL_A_REG) (voiceInv_getD hd.1 0)
  have hw1 := voiceFrame_sound (d.2.1.getD 1 default) fc (VOL_A_REG + 1) s.dd_samples
    (frame.vol (VOL_A_REG + 1)) (voiceInv_getD hd.1 1)
  have hw2 := voiceFrame_sound (d.2.1.getD 2 default) fc (VOL_A_REG + 2) s.dd_samples
    (frame.vol (VOL_A_REG + 2)) (voiceInv_getD hd.1 2)
  have hbz2 := bz_iter_frame_sound d.2.2 fc hd.2.1 hd.2.2
  rw [← hw0e] at hw0
  rw [← hw1e] at hw1
  rw [← hw2e] at hw2
  rw [← hbze] at hbz2
  set srcs := [iter_select w0.1, iter_select w1.1, iter_select w2.1].filterMap id
      ++ bz.1.toList with hsrcs
  have hsrc : ∀ l ∈ srcs, (∀ x ∈ l, 0 ≤ x.1 ∧ x.1 < fc) ∧ l.Pairwise evLe := by
    intro l hl
    rw [hsrcs] at hl
    simp only [List.mem_append, List.mem_filterMap, List.mem_cons,
      List.not_mem_nil, or_false, id_eq] at hl
    rcases hl with ⟨o, ho, hsel⟩ | hbzl
    · rcases ho with rfl | rfl | rfl
      · have := hw0.1 l hsel
        exact ⟨fun x hx => ⟨(this.1 x hx).1, (this.1 x hx).2.1⟩, this.2⟩
      · have := hw1.1 l hsel
        exact ⟨fun x hx => ⟨(this.1 x hx).1, (this.1 x hx).2.1⟩, this.2⟩
      · have := hw2.1 l hsel
        exact ⟨fun x hx => ⟨(this.1 x hx).1, (this.1 x hx).2.1⟩, this.2⟩
    · have hbl : bz.1 = some l := by
        cases hb : bz.1 with
        | none => rw [hb] at hbzl; simp [Option.toList] at hbzl
        | some l2 =>
          rw [hb] at hbzl
          simp only [Option.toList, List.mem_cons, List.not_mem_nil, or_false] at hbzl
          rw [hbzl]
      have := hbz2.1 l hbl
      exact ⟨fun x hx => ⟨(this.1 x hx).1, (this.1 x hx).2.1⟩, this.2⟩
  have hMixB : ∀ e ∈ mixerRun srcs, 0 ≤ e.1 ∧ e.1 < fc := by
    intro e he
    obtain ⟨l, hl, hel⟩ := mixerRun_mem he
    exact (hsrc l hl).1 e hel
  have hMixS : (mixerRun srcs).Pairwise evLe :=
    mixerRun_sorted fun l hl => (hsrc l hl).2
  have hite : ∀ (c : Prop) (inst : Decidable c) (ev x : Event),
      x ∈ (if c then [ev] else ([] : List Event)) → x = ev := by
    intro c inst ev x hmem
    split_ifs at hmem
    · simpa using hmem
    · simp at hmem
  set cm : ℕ :=
    ((frame.data.getD MIXER_REG 0
      ||| (if w0.1.2.2.isSome then 0b001001 else 0))
      ||| (if w1.1.2.2.isSome then 0b010010 else 0))
      ||| (if w2.1.2.2.isSome then 0b100100 else 0) with hcm
  have hT0 : ∀ e ∈ d.1
      ++ (List.range MIXER_REG).map (fun r => ((0 : ℚ), r, frame.data.getD r 0))
      ++ ((if allNone w0.1 then [((0 : ℚ), VOL_A_REG, frame.vol VOL_A_REG)] else [])
        ++ (if allNone w1.1 then [((0 : ℚ), VOL_A_REG + 1, frame.vol (VOL_A_REG + 1))] else [])
        ++ (if allNone w2.1 then [((0 : ℚ), VOL_A_REG + 2, frame.vol (VOL_A_REG + 2))] else []))
      ++ [((0 : ℚ), MIXER_REG, cm)], e.1 = 0 := by
    intro e he
    simp only [List.mem_append] at he
    rcases he with ((hd1 | hb) | (h1 | h2) | h3) | hm
    · exact (dispatchFrame_evs s0 e hd1).1
    · rcases List.mem_map.mp hb with ⟨r, hr, rfl⟩
      rfl
    · rw [hite _ _ _ e h1]
    · rw [hite _ _ _ e h2]
    · rw [hite _ _ _ e h3]
    · simp only [List.mem_singleton] at hm
      rw [hm]
  refine ⟨?_, ?_, ?_, ?_⟩
  · intro e he
    rcases List.mem_append.mp he with hT | hM
    · have h0 := hT0 e hT
      rw [h0]
      exact ⟨le_refl 0, hfc⟩
    · exact hMixB e hM
  · exact t0_append_sorted hT0 hMixS (fun e he => (hMixB e he).1)
  · intro v hv
    simp only [List.mem_cons, List.not_mem_nil, or_false] at hv
    rcases hv with rfl | rfl | rfl
    · exact hw0.2
    · exact hw1.2
    · exact hw2.2
  · exact hbz2.2


/-- Claim C1 (confirmed).  Under the player invariant (which holds for a
freshly parsed song and, by the last conjunct, is preserved by every
call), with positive chip and frame frequencies, every timestamp emitted
by one call of `produce_next_ay_frame` lies in `[0, frame_cycles)` and
the emitted sequence is non-decreasing in the timestamp, for every
version, any combination of active effects and any timer carry-over. -/
theorem claimC1_produce_timestamps (s : YmSong)
    (hck : 0 < s.chipset_frequency) (hff : 0 < s.frame_frequency)
    (hinv : Inv s) :
    (∀ e ∈ s.produce_next_ay_frame.1, 0 ≤ e.1 ∧ e.1 < s.frame_cycles) ∧
    s.produce_next_ay_frame.1.Pairwise evLe ∧
    Inv s.produce_next_ay_frame.2.1 := by
  have h := frameEvents_sound s hck hff hinv
  simp only [YmSong.produce_next_ay_frame]
  split_ifs with hc
  · exact ⟨h.1, h.2.1, h.2.2.1, h.2.2.2⟩
  · exact ⟨h.1, h.2.1, h.2.2.1, h.2.2.2⟩

/-- Witness for C1 at a concrete freshly-built one-frame YM3 song. -/
theorem claimC1_produce_timestamps_witness :
    (0 < (YmSong.new YmVersion.Ym3 [⟨List.replicate 16 0⟩] 0 "t").chipset_frequency ∧
     0 < (YmSong.new YmVersion.Ym3 [⟨List.replicate 16 0⟩] 0 "t").frame_frequency ∧
     Inv (YmSong.new YmVersion.Ym3 [⟨List.replicate 16 0⟩] 0 "t")) ∧
    ((∀ e ∈ (YmSong.new YmVersion.Ym3 [⟨List.replicate 16 0⟩] 0 "t").produce_next_ay_frame.1,
        0 ≤ e.1 ∧
        e.1 < (YmSong.new YmVersion.Ym3 [⟨List.replicate 16 0⟩] 0 "t").frame_cycles) ∧
     (YmSong.new YmVersion.Ym3 [⟨List.replicate 16 0⟩] 0 "t").produce_next_ay_frame.1.Pairwise evLe ∧
     Inv (YmSong.new YmVersion.Ym3 [⟨List.replicate 16 0⟩] 0 "t").produce_next_ay_frame.2.1) :=
  ⟨⟨by decide, by decide, by decide⟩,
   claimC1_produce_timestamps _ (by decide) (by decide) (by decide)⟩

/-! ### Cursor advance (claim C3) -/

theorem produce_frames (s : YmSong) :
    s.produce_next_ay_frame.2.1.frames = s.frames := by
  simp only [YmSong.produce_next_ay_frame]
  split_ifs <;> rfl

theorem produce_loop_frame (s : YmSong) :
    s.produce_next_ay_frame.2.1.loop_frame = s.loop_frame := by
  simp only [YmSong.produce_next_ay_frame]
  split_ifs <;> rfl

theorem produce_flag (s : YmSong) :
    s.produce_next_ay_frame.2.2 = decide ((s.cursor + 1) % s.frames.length = 0) := by
  simp only [YmSong.produce_next_ay_frame]
  split_ifs with hc
  · simp [hc]
  · simp [hc]

theorem produce_cursor_wrap (s : YmSong)
    (hc : (s.cursor + 1) % s.frames.length = 0) :
    s.produce_next_ay_frame.2.1.cursor = min s.loop_frame (s.frames.length - 1) := by
  simp only [YmSong.produce_next_ay_frame]
  rw [if_pos hc]

theorem produce_cursor_no_wrap (s : YmSong)
    (hc : (s.cursor + 1) % s.frames.length ≠ 0) :
    s.produce_next_ay_frame.2.1.cursor = (s.cursor + 1) % s.frames.length := by
  simp only [YmSong.produce_next_ay_frame]
  rw [if_neg hc]

theorem produceLoop_run (k : ℕ) :
    ∀ s : YmSong, s.cursor + (k + 1) = s.frames.length →
      produceLoop s (k + 1) = List.replicate k false ++ [true] := by
  induction k with
  | zero =>
    intro s hk
    have hn : s.frames.length ≠ 0 := by omega
    have hc : (s.cursor + 1) % s.frames.length = 0 := by
      rw [hk]
      exact Nat.mod_self _
    simp only [produceLoop, List.replicate, List.nil_append]
    rw [produce_flag s, hc]
    rfl
  | succ k ih =>
    intro s hk
    have hlt : s.cursor + 1 < s.frames.length := by omega
    have hc : (s.cursor + 1) % s.frames.length = s.cursor + 1 :=
      Nat.mod_eq_of_lt hlt
    have hc0 : (s.cursor + 1) % s.frames.length ≠ 0 := by omega
    have hcur := produce_cursor_no_wrap s hc0
    have hfr := produce_frames s
    have hstep : produceLoop s (k + 1 + 1)
        = false :: produceLoop s.produce_next_ay_frame.2.1 (k + 1) := by
      simp only [produceLoop]
      rw [produce_flag s]
      congr 1
      simp [hc0]
    rw [hstep, ih s.produce_next_ay_frame.2.1 (by rw [hcur, hfr, hc]; omega)]
    simp [List.replicate]

/-- Claim C3 (confirmed).  One call advances the cursor by one modulo
`frames.len()`: it returns `true` exactly when the increment wraps to 0
(and then sets the cursor to `min loop_frame (frames.len() - 1)`),
otherwise it returns `false` and sets the cursor to the incremented
value; consequently, calling it `frames.len()` times from `cursor = 0`
returns `false` on every call but the last, which returns `true`. -/
theorem claimC3_cursor_advance (s : YmSong) (hn : 0 < s.frames.length) :
    (s.produce_next_ay_frame.2.2 = true ↔ (s.cursor + 1) % s.frames.length = 0) ∧
    ((s.cursor + 1) % s.frames.length = 0 →
      s.produce_next_ay_frame.2.1.cursor = min s.loop_frame (s.frames.length - 1)) ∧
    ((s.cursor + 1) % s.frames.length ≠ 0 →
      s.produce_next_ay_frame.2.2 = false ∧
      s.produce_next_ay_frame.2.1.cursor = (s.cursor + 1) % s.frames.length) ∧
    (s.cursor = 0 →
      produceLoop s s.frames.length
        = List.replicate (s.frames.length - 1) false ++ [true]) := by
  refine ⟨?_, produce_cursor_wrap s, ?_, ?_⟩
  · rw [produce_flag s]
    simp
  · intro hc
    refine ⟨?_, produce_cursor_no_wrap s hc⟩
    rw [produce_flag s]
    simp [hc]
  · intro hc0
    obtain ⟨k, hk⟩ : ∃ k, s.frames.length = k + 1 :=
      ⟨s.frames.length - 1, by omega⟩
    rw [hk]
    have := produceLoop_run k s (by omega)
    simpa using this

/-- Witness for C3 at a concrete two-frame song with `cursor = 0`. -/
theorem claimC3_cursor_advance_witness :
    (0 < (YmSong.new YmVersion.Ym3 [⟨List.replicate 16 0⟩, ⟨List.replicate 16 0⟩] 5 "t").frames.length) ∧
    produceLoop (YmSong.new YmVersion.Ym3 [⟨List.replicate 16 0⟩, ⟨List.replicate 16 0⟩] 5 "t")
        (YmSong.new YmVersion.Ym3 [⟨List.replicate 16 0⟩, ⟨List.replicate 16 0⟩] 5 "t").frames.length
      = List.replicate 1 false ++ [true] :=
  ⟨by decide,
   ((claimC3_cursor_advance
      (YmSong.new YmVersion.Ym3 [⟨List.replicate 16 0⟩, ⟨List.replicate 16 0⟩] 5 "t")
      (by decide)).2.2.2 (by decide))⟩


/-! ### Register targets of effect events (claims C2 and C4) -/

theorem produce_events (s : YmSong) :
    s.produce_next_ay_frame.1 = (frameEvents s).1 := by
  simp only [YmSong.produce_next_ay_frame]
  split_ifs <;> rfl

theorem ddLoop_reg {step limit : ℚ} {reg endVol : ℕ} :
    ∀ (f : ℕ) (c : ℚ) (samples : List ℕ),
      ∀ x ∈ (ddLoop step limit reg endVol f c samples).1, x.2.1 = reg := by
  intro f
  induction f with
  | zero => intro c samples x hx; simp [ddLoop] at hx
  | succ f ih =>
    intro c samples x hx
    by_cases hc : c < limit
    · cases samples with
      | cons vol rest =>
        simp only [ddLoop, if_pos hc, List.mem_cons] at hx
        rcases hx with rfl | hx
        · rfl
        · exact ih _ _ x hx
      | nil =>
        simp only [ddLoop, if_pos hc, List.mem_cons] at hx
        rcases hx with rfl | hx
        · rfl
        · exact ih _ _ x hx
    · rw [ddLoop_of_not_lt _ _ hc] at hx
      simp at hx

theorem sv_iter_frame_reg (sv : SidVoice) (limit : ℚ) (reg : ℕ) :
    ∀ evs, (sv.iter_frame limit reg).1 = some evs → ∀ x ∈ evs, x.2.1 = reg := by
  intro evs hevs x hx
  unfold SidVoice.iter_frame at hevs
  split_ifs at hevs
  simp only [Option.some.injEq] at hevs
  subst hevs
  refine fxLoop_reg _ _ _ _ ?_ _ _ _ x hx
  intro c st
  rfl

theorem ss_iter_frame_reg (ss : SinusSid) (limit : ℚ) (reg : ℕ) :
    ∀ evs, (ss.iter_frame limit reg).1 = some evs → ∀ x ∈ evs, x.2.1 = reg := by
  intro evs hevs x hx
  unfold SinusSid.iter_frame at hevs
  split_ifs at hevs
  simp only [Option.some.injEq] at hevs
  subst hevs
  refine fxLoop_reg _ _ _ _ ?_ _ _ _ x hx
  intro c st
  rfl

theorem dd_iter_frame_reg (dd : DigiDrum) (limit : ℚ) (reg : ℕ)
    (dd_samples : List ℕ) (endVol : ℕ) :
    ∀ evs, (dd.iter_frame limit reg dd_samples endVol).1 = some evs →
      ∀ x ∈ evs, x.2.1 = reg := by
  intro evs hevs x hx
  unfold DigiDrum.iter_frame at hevs
  split_ifs at hevs
  simp only [Option.some.injEq] at hevs
  subst hevs
  exact ddLoop_reg _ _ _ x hx

theorem bz_iter_frame_reg (b : SyncBuzzer) (limit : ℚ) :
    ∀ evs, (b.iter_frame limit).1 = some evs → ∀ x ∈ evs, x.2.1 = ENV_REG := by
  intro evs hevs x hx
  unfold SyncBuzzer.iter_frame at hevs
  split_ifs at hevs
  simp only [Option.some.injEq] at hevs
  subst hevs
  rcases List.mem_map.mp hx with ⟨ts, _, rfl⟩
  rfl

theorem voiceFrame_reg (v : VoiceFx) (limit : ℚ) (reg : ℕ) (samples : List ℕ)
    (endVol : ℕ) :
    ∀ evs, iter_select (voiceFrame v limit reg samples endVol).1 = some evs →
      ∀ x ∈ evs, x.2.1 = reg := by
  intro evs hevs
  simp only [voiceFrame] at hevs
  cases h1 : (v.1.iter_frame limit reg).1 with
  | some evs1 =>
    rw [h1] at hevs
    simp only [iter_select, Option.some.injEq] at hevs
    subst hevs
    exact sv_iter_frame_reg v.1 limit reg evs1 h1
  | none =>
    rw [h1] at hevs
    dsimp only at hevs
    cases h2 : (v.2.1.iter_frame limit reg).1 with
    | some evs2 =>
      rw [h2] at hevs
      simp only [iter_select, Option.some.injEq] at hevs
      subst hevs
      exact ss_iter_frame_reg v.2.1 limit reg evs2 h2
    | none =>
      rw [h2] at hevs
      dsimp only at hevs
      cases h3 : (v.2.2.iter_frame limit reg samples endVol).1 with
      | some evs3 =>
        rw [h3] at hevs
        simp only [iter_select, Option.some.injEq] at hevs
        subst hevs
        exact dd_iter_frame_reg v.2.2 limit reg samples endVol evs3 h3
      | none =>
        rw [h3] at hevs
        simp [iter_select] at hevs

/-- Whether the producer's priority chain retains the DIGI-DRUM iterator
of a voice: neither SID voice nor Sinus SID is active and the digi-drum
has samples left. -/
def ddForced (v : VoiceFx) : Bool :=
  !v.1.active && !v.2.1.active && decide (v.2.2.cur < v.2.2.end_)

theorem sv_iter_frame_isSome (sv : SidVoice) (limit : ℚ) (reg : ℕ) :
    (sv.iter_frame limit reg).1.isSome = sv.active := by
  unfold SidVoice.iter_frame
  by_cases h : sv.active <;> simp [h]

theorem ss_iter_frame_isSome (ss : SinusSid) (limit : ℚ) (reg : ℕ) :
    (ss.iter_frame limit reg).1.isSome = ss.active := by
  unfold SinusSid.iter_frame
  by_cases h : ss.active <;> simp [h]

theorem dd_iter_frame_isSome (dd : DigiDrum) (limit : ℚ) (reg : ℕ)
    (dd_samples : List ℕ) (endVol : ℕ) :
    (dd.iter_frame limit reg dd_samples endVol).1.isSome
      = decide (dd.cur < dd.end_) := by
  unfold DigiDrum.iter_frame
  by_cases h : dd.cur < dd.end_ <;> simp [h]

theorem voiceFrame_sv_isSome (v : VoiceFx) (limit : ℚ) (reg : ℕ)
    (samples : List ℕ) (endVol : ℕ) :
    (voiceFrame v limit reg samples endVol).1.1.isSome = v.1.active := by
  simp only [voiceFrame]
  cases h1 : (v.1.iter_frame limit reg).1 with
  | some evs1 =>
    have hsv : v.1.active = true := by
      have := sv_iter_frame_isSome v.1 limit reg
      rw [h1] at this
      simpa using this.symm
    simp [hsv]
  | none =>
    have hsv : v.1.active = false := by
      have := sv_iter_frame_isSome v.1 limit reg
      rw [h1] at this
      simpa using this.symm
    dsimp only
    cases h2 : (v.2.1.iter_frame limit reg).1 with
    | some evs2 => simp [hsv]
    | none =>
      dsimp only
      cases h3 : (v.2.2.iter_frame limit reg samples endVol).1 with
      | some evs3 => simp [hsv]
      | none => simp [hsv]

theorem voiceFrame_ss_isSome (v : VoiceFx) (limit : ℚ) (reg : ℕ)
    (samples : List ℕ) (endVol : ℕ) :
    (voiceFrame v limit reg samples endVol).1.2.1.isSome
      = (!v.1.active && v.2.1.active) := by
  simp only [voiceFrame]
  cases h1 : (v.1.iter_frame limit reg).1 with
  | some evs1 =>
    have hsv : v.1.active = true := by
      have := sv_iter_frame_isSome v.1 limit reg
      rw [h1] at this
      simpa using this.symm
    simp [hsv]
  | none =>
    have hsv : v.1.active = false := by
      have := sv_iter_frame_isSome v.1 limit reg
      rw [h1] at this
      simpa using this.symm
    dsimp only
    cases h2 : (v.2.1.iter_frame limit reg).1 with
    | some evs2 =>
      have hss : v.2.1.active = true := by
        have := ss_iter_frame_isSome v.2.1 limit reg
        rw [h2] at this
        simpa using this.symm
      simp [hsv, hss]
    | none =>
      have hss : v.2.1.active = false := by
        have := ss_iter_frame_isSome v.2.1 limit reg
        rw [h2] at this
        simpa using this.symm
      dsimp only
      cases h3 : (v.2.2.iter_frame limit reg samples endVol).1 with
      | some evs3 => simp [hsv, hss]
      | none => simp [hsv, hss]

theorem voiceFrame_dd_isSome (v : VoiceFx) (limit : ℚ) (reg : ℕ)
    (samples : List ℕ) (endVol : ℕ) :
    (voiceFrame v limit reg samples endVol).1.2.2.isSome = ddForced v := by
  simp only [voiceFrame]
  cases h1 : (v.1.iter_frame limit reg).1 with
  | some evs1 =>
    have hsv : v.1.active = true := by
      have := sv_iter_frame_isSome v.1 limit reg
      rw [h1] at this
      simpa using this.symm
    simp [ddForced, hsv]
  | none =>
    have hsv : v.1.active = false := by
      have := sv_iter_frame_isSome v.1 limit reg
      rw [h1] at this
      simpa using this.symm
    dsimp only
    cases h2 : (v.2.1.iter_frame limit reg).1 with
    | some evs2 =>
      have hss : v.2.1.active = true := by
        have := ss_iter_frame_isSome v.2.1 limit reg
        rw [h2] at this
        simpa using this.symm
      simp [ddForced, hsv, hss]
    | none =>
      have hss : v.2.1.active = false := by
        have := ss_iter_frame_isSome v.2.1 limit reg
        rw [h2] at this
        simpa using this.symm
      dsimp only
      cases h3 : (v.2.2.iter_frame limit reg samples endVol).1 with
      | some evs3 =>
        have hdd : decide (v.2.2.cur < v.2.2.end_) = true := by
          have := dd_iter_frame_isSome v.2.2 limit reg samples endVol
          rw [h3] at this
          simpa using this.symm
        simp [ddForced, hsv, hss, hdd]
      | none =>
        have hdd : decide (v.2.2.cur < v.2.2.end_) = false := by
          have := dd_iter_frame_isSome v.2.2 limit reg samples endVol
          rw [h3] at this
          simpa using this.symm
        simp [ddForced, hsv, hss, hdd]

theorem voiceFrame_allNone (v : VoiceFx) (limit : ℚ) (reg : ℕ)
    (samples : List ℕ) (endVol : ℕ) :
    allNone (voiceFrame v limit reg samples endVol).1
      = (!v.1.active && !v.2.1.active && !decide (v.2.2.cur < v.2.2.end_)) := by
  have hc : ∀ (o : Option (List Event)), o.isNone = !o.isSome := fun o => by
    cases o <;> rfl
  rw [allNone, hc, hc, hc, voiceFrame_sv_isSome, voiceFrame_ss_isSome,
    voiceFrame_dd_isSome, ddForced]
  cases v.1.active <;> cases v.2.1.active <;>
    cases hdd : decide (v.2.2.cur < v.2.2.end_) <;> simp


/-- Claim C2 (corrected).  In every produced frame the events targeting
registers 0–7 are exactly: registers 0 through **6** emitted verbatim
from the frame at `t = 0`, followed by the computed mixer byte — the
frame's mixer value with mask `0b001001` shifted by the voice index
forced for every voice whose DIGI-DRUM iterator is retained this frame —
emitted exactly once as register **7** (`MIXER_REG`), not register 6. -/
theorem claimC2_mixer_register (s : YmSong) :
    s.produce_next_ay_frame.1.filter (fun e => decide (e.2.1 ≤ 7))
      = (List.range 7).map
          (fun r => ((0 : ℚ), r, (s.frames.getD s.cursor default).data.getD r 0))
        ++ [((0 : ℚ), 7,
            (((s.frames.getD s.cursor default).data.getD 7 0
              ||| (if ddForced ((dispatchFrame { s with
                      voice_effects := stopTransient s.voice_effects,
                      buzzer := s.buzzer.stop }).2.1.getD 0 default)
                   then 0b001001 else 0))
              ||| (if ddForced ((dispatchFrame { s with
                      voice_effects := stopTransient s.voice_effects,
                      buzzer := s.buzzer.stop }).2.1.getD 1 default)
                   then 0b010010 else 0))
              ||| (if ddForced ((dispatchFrame { s with
                      voice_effects := stopTransient s.voice_effects,
                      buzzer := s.buzzer.stop }).2.1.getD 2 default)
                   then 0b100100 else 0))] := by
  rw [produce_events]
  simp only [frameEvents]
  set s0 : YmSong := { s with voice_effects := stopTransient s.voice_effects,
                              buzzer := s.buzzer.stop } with hs0
  set d := dispatchFrame s0 with hdeq
  set frame := s.frames.getD s.cursor default with hframe
  set fc := s.frame_cycles with hfceq
  set w0 := voiceFrame (d.2.1.getD 0 default) fc VOL_A_REG s.dd_samples
    (frame.vol VOL_A_REG) with hw0e
  set w1 := voiceFrame (d.2.1.getD 1 default) fc (VOL_A_REG + 1) s.dd_samples
    (frame.vol (VOL_A_REG + 1)) with hw1e
  set w2 := voiceFrame (d.2.1.getD 2 default) fc (VOL_A_REG + 2) s.dd_samples
    (frame.vol (VOL_A_REG + 2)) with hw2e
  set bz := d.2.2.iter_frame fc with hbze
  have hd0 := voiceFrame_dd_isSome (d.2.1.getD 0 default) fc VOL_A_REG s.dd_samples
    (frame.vol VOL_A_REG)
  have hd1 := voiceFrame_dd_isSome (d.2.1.getD 1 default) fc (VOL_A_REG + 1) s.dd_samples
    (frame.vol (VOL_A_REG + 1))
  have hd2 := voiceFrame_dd_isSome (d.2.1.getD 2 default) fc (VOL_A_REG + 2) s.dd_samples
    (frame.vol (VOL_A_REG + 2))
  rw [← hw0e] at hd0
  rw [← hw1e] at hd1
  rw [← hw2e] at hd2
  have hite : ∀ (c : Prop) (inst : Decidable c) (ev x : Event),
      x ∈ (if c then [ev] else ([] : List Event)) → x = ev := by
    intro c inst ev x hmem
    split_ifs at hmem
    · simpa using hmem
    · simp at hmem
  rw [List.filter_append, List.filter_append, List.filter_append,
    List.filter_append]
  have hfd : d.1.filter (fun e => decide (e.2.1 ≤ 7)) = [] := by
    rw [List.filter_eq_nil_iff]
    intro e he
    have h := (dispatchFrame_evs s0 e he).2
    simp only [decide_eq_true_eq]
    omega
  have hfb : ((List.range MIXER_REG).map
        (fun r => ((0 : ℚ), r, frame.data.getD r 0))).filter
          (fun e => decide (e.2.1 ≤ 7))
      = (List.range MIXER_REG).map (fun r => ((0 : ℚ), r, frame.data.getD r 0)) := by
    rw [List.filter_eq_self]
    intro e he
    rcases List.mem_map.mp he with ⟨r, hr, rfl⟩
    have : r < 7 := by simpa [MIXER_REG] using hr
    simp only [decide_eq_true_eq]
    omega
  have hfv : ((if allNone w0.1 then [((0 : ℚ), VOL_A_REG, frame.vol VOL_A_REG)] else [])
        ++ (if allNone w1.1 then [((0 : ℚ), VOL_A_REG + 1, frame.vol (VOL_A_REG + 1))] else [])
        ++ (if allNone w2.1 then [((0 : ℚ), VOL_A_REG + 2, frame.vol (VOL_A_REG + 2))] else [])).filter
          (fun e => decide (e.2.1 ≤ 7)) = [] := by
    rw [List.filter_eq_nil_iff]
    intro e he
    simp only [List.mem_append] at he
    rcases he with (h1 | h2) | h3
    · rw [hite _ _ _ e h1]
      simp [VOL_A_REG]
    · rw [hite _ _ _ e h2]
      simp [VOL_A_REG]
    · rw [hite _ _ _ e h3]
      simp [VOL_A_REG]
  have hfm : ∀ cm : ℕ, ([((0 : ℚ), MIXER_REG, cm)]).filter
        (fun e => decide (e.2.1 ≤ 7)) = [((0 : ℚ), MIXER_REG, cm)] := by
    intro cm
    simp [MIXER_REG]
  have hfx : (mixerRun ([iter_select w0.1, iter_select w1.1, iter_select w2.1].filterMap id
        ++ bz.1.toList)).filter (fun e => decide (e.2.1 ≤ 7)) = [] := by
    rw [List.filter_eq_nil_iff]
    intro e he
    obtain ⟨l, hl, hel⟩ := mixerRun_mem he
    simp only [List.mem_append, List.mem_filterMap, List.mem_cons,
      List.not_mem_nil, or_false, id_eq] at hl
    rcases hl with ⟨o, ho, hsel⟩ | hbzl
    · rcases ho with rfl | rfl | rfl
      · have := voiceFrame_reg _ _ _ _ _ l (hw0e ▸ hsel) e hel
        simp only [decide_eq_true_eq, this, VOL_A_REG]
        omega
      · have := voiceFrame_reg _ _ _ _ _ l (hw1e ▸ hsel) e hel
        simp only [decide_eq_true_eq, this, VOL_A_REG]
        omega
      · have := voiceFrame_reg _ _ _ _ _ l (hw2e ▸ hsel) e hel
        simp only [decide_eq_true_eq, this, VOL_A_REG]
        omega
    · have hbl : bz.1 = some l := by
        cases hb : bz.1 with
        | none => rw [hb] at hbzl; simp [Option.toList] at hbzl
        | some l2 =>
          rw [hb] at hbzl
          simp only [Option.toList, List.mem_cons, List.not_mem_nil, or_false] at hbzl
          rw [hbzl]
      have := bz_iter_frame_reg d.2.2 fc l (hbze ▸ hbl) e hel
      simp only [decide_eq_true_eq, this, ENV_REG]
      omega
  rw [hfd, hfb, hfv, hfm, hfx]
  simp only [List.nil_append, List.append_nil]
  rw [hd0, hd1, hd2]
  rfl

/-- Counterexample to C2 as stated: on a one-frame YM3 song whose frame
has noise-period byte (register 6) `31` and mixer byte (register 7) `85`
and no active effect, the single emission to register 6 carries the
frame's verbatim byte `31`, not the computed mixer byte `85` (which goes
to register 7): the mixer byte is not emitted as register 6. -/
theorem claimC2_counterexample :
    List.map (fun e => e.2.2)
        (List.filter (fun e => decide (e.2.1 = 6))
          (YmSong.produce_next_ay_frame
            (YmSong.new YmVersion.Ym3
              [⟨[0, 0, 0, 0, 0, 0, 31, 85, 0, 0, 0, 0, 0, 0, 0, 0]⟩] 0 "t")).1)
      = [31] ∧
    ¬ List.map (fun e => e.2.2)
        (List.filter (fun e => decide (e.2.1 = 6))
          (YmSong.produce_next_ay_frame
            (YmSong.new YmVersion.Ym3
              [⟨[0, 0, 0, 0, 0, 0, 31, 85, 0, 0, 0, 0, 0, 0, 0, 0]⟩] 0 "t")).1)
      = [85] ∧
    List.map (fun e => e.2.2)
        (List.filter (fun e => decide (e.2.1 = 7))
          (YmSong.produce_next_ay_frame
            (YmSong.new YmVersion.Ym3
              [⟨[0, 0, 0, 0, 0, 0, 31, 85, 0, 0, 0, 0, 0, 0, 0, 0]⟩] 0 "t")).1)
      = [85] := by
  refine ⟨by decide, by decide, by decide⟩


theorem allNone_iter_select
    {t : Option (List Event) × Option (List Event) × Option (List Event)}
    (h : allNone t = true) : iter_select t = none := by
  obtain ⟨a, b, c⟩ := t
  simp only [allNone, Bool.and_eq_true, Option.isNone_iff_eq_none] at h
  obtain ⟨⟨rfl, rfl⟩, rfl⟩ := h
  rfl

/-- Claim C4 (confirmed).  For every voice and frame at most one of
SID voice, Sinus SID, DIGI-DRUM retains an iterator, selected by the
fixed priority order (the three `isSome` equations characterise the
selection completely); and when none of the three is active on a voice,
the produced frame emits exactly one plain volume write
`(0, VOL_reg, frame.vol voice)` for that voice's volume register. -/
theorem claimC4_voice_priority (s : YmSong) :
    (∀ (v : VoiceFx) (limit : ℚ) (reg : ℕ) (smp : List ℕ) (ev : ℕ),
      (voiceFrame v limit reg smp ev).1.1.isSome = v.1.active ∧
      (voiceFrame v limit reg smp ev).1.2.1.isSome = (!v.1.active && v.2.1.active) ∧
      (voiceFrame v limit reg smp ev).1.2.2.isSome = ddForced v ∧
      ((if (voiceFrame v limit reg smp ev).1.1.isSome then 1 else 0)
        + (if (voiceFrame v limit reg smp ev).1.2.1.isSome then 1 else 0)
        + (if (voiceFrame v limit reg smp ev).1.2.2.isSome then 1 else 0) ≤ 1)) ∧
    (∀ i, i < 3 →
      ((dispatchFrame { s with
          voice_effects := stopTransient s.voice_effects,
          buzzer := s.buzzer.stop }).2.1.getD i default).1.active = false →
      ((dispatchFrame { s with
          voice_effects := stopTransient s.voice_effects,
          buzzer := s.buzzer.stop }).2.1.getD i default).2.1.active = false →
      ¬ (((dispatchFrame { s with
          voice_effects := stopTransient s.voice_effects,
          buzzer := s.buzzer.stop }).2.1.getD i default).2.2.cur
        < ((dispatchFrame { s with
          voice_effects := stopTransient s.voice_effects,
          buzzer := s.buzzer.stop }).2.1.getD i default).2.2.end_) →
      s.produce_next_ay_frame.1.filter (fun e => decide (e.2.1 = VOL_A_REG + i))
        = [((0 : ℚ), VOL_A_REG + i, (s.frames.getD s.cursor default).vol i)]) := by
  constructor
  · intro v limit reg smp ev
    have h1 := voiceFrame_sv_isSome v limit reg smp ev
    have h2 := voiceFrame_ss_isSome v limit reg smp ev
    have h3 := voiceFrame_dd_isSome v limit reg smp ev
    refine ⟨h1, h2, h3, ?_⟩
    rw [h1, h2, h3, ddForced]
    cases v.1.active <;> cases v.2.1.active <;>
      cases hdd : decide (v.2.2.cur < v.2.2.end_) <;> simp
  · intro i hi hc1 hc2 hc3
    rw [produce_events]
    simp only [frameEvents]
    set s0 : YmSong := { s with voice_effects := stopTransient s.voice_effects,
                                buzzer := s.buzzer.stop } with hs0
    set d := dispatchFrame s0 with hdeq
    set frame := s.frames.getD s.cursor default with hframe
    set fc := s.frame_cycles with hfceq
    set w0 := voiceFrame (d.2.1.getD 0 default) fc VOL_A_REG s.dd_samples
      (frame.vol VOL_A_REG) with hw0e
    set w1 := voiceFrame (d.2.1.getD 1 default) fc (VOL_A_REG + 1) s.dd_samples
      (frame.vol (VOL_A_REG + 1)) with hw1e
    set w2 := voiceFrame (d.2.1.getD 2 default) fc (VOL_A_REG + 2) s.dd_samples
      (frame.vol (VOL_A_REG + 2)) with hw2e
    set bz := d.2.2.iter_frame fc with hbze
    have hA0 := voiceFrame_allNone (d.2.1.getD 0 default) fc VOL_A_REG s.dd_samples
      (frame.vol VOL_A_REG)
    have hA1 := voiceFrame_allNone (d.2.1.getD 1 default) fc (VOL_A_REG + 1) s.dd_samples
      (frame.vol (VOL_A_REG + 1))
    have hA2 := voiceFrame_allNone (d.2.1.getD 2 default) fc (VOL_A_REG + 2) s.dd_samples
      (frame.vol (VOL_A_REG + 2))
    rw [← hw0e] at hA0
    rw [← hw1e] at hA1
    rw [← hw2e] at hA2
    rw [List.filter_append, List.filter_append, List.filter_append,
      List.filter_append]
    have hfd : d.1.filter (fun e => decide (e.2.1 = VOL_A_REG + i)) = [] := by
      rw [List.filter_eq_nil_iff]
      intro e he
      have h := (dispatchFrame_evs s0 e he).2
      simp only [decide_eq_true_eq, VOL_A_REG]
      omega
    have hfb : ((List.range MIXER_REG).map
          (fun r => ((0 : ℚ), r, frame.data.getD r 0))).filter
            (fun e => decide (e.2.1 = VOL_A_REG + i)) = [] := by
      rw [List.filter_eq_nil_iff]
      intro e he
      rcases List.mem_map.mp he with ⟨r, hr, rfl⟩
      have : r < 7 := by simpa [MIXER_REG] using hr
      simp only [decide_eq_true_eq, VOL_A_REG]
      omega
    have hfm : ∀ cm : ℕ, ([((0 : ℚ), MIXER_REG, cm)]).filter
          (fun e => decide (e.2.1 = VOL_A_REG + i)) = [] := by
      intro cm
      have : ¬ (MIXER_REG = VOL_A_REG + i) := by
        simp only [MIXER_REG, VOL_A_REG]
        omega
      simp [this]
    interval_cases i
    · have hall : allNone w0.1 = true := by
        rw [hA0, hc1, hc2]
        simp only [Bool.not_false, Bool.true_and, Bool.not_eq_true']
        exact decide_eq_false hc3
      have hsel : iter_select w0.1 = none := allNone_iter_select hall
      have hfv : ((if allNone w0.1 then [((0 : ℚ), VOL_A_REG, frame.vol VOL_A_REG)] else [])
            ++ (if allNone w1.1 then [((0 : ℚ), VOL_A_REG + 1, frame.vol (VOL_A_REG + 1))] else [])
            ++ (if allNone w2.1 then [((0 : ℚ), VOL_A_REG + 2, frame.vol (VOL_A_REG + 2))] else [])).filter
              (fun e => decide (e.2.1 = VOL_A_REG + 0))
          = [((0 : ℚ), VOL_A_REG, frame.vol VOL_A_REG)] := by
        rw [List.filter_append, List.filter_append, if_pos hall]
        split_ifs <;> simp [VOL_A_REG]
      have hfx : (mixerRun ([iter_select w0.1, iter_select w1.1, iter_select w2.1].filterMap id
            ++ bz.1.toList)).filter (fun e => decide (e.2.1 = VOL_A_REG + 0)) = [] := by
        rw [List.filter_eq_nil_iff]
        intro e he
        obtain ⟨l, hl, hel⟩ := mixerRun_mem he
        simp only [List.mem_append, List.mem_filterMap, List.mem_cons,
          List.not_mem_nil, or_false, id_eq] at hl
        rcases hl with ⟨o, ho, hsel2⟩ | hbzl
        · rcases ho with rfl | rfl | rfl
          · rw [hsel] at hsel2
            simp at hsel2
          · have := voiceFrame_reg _ _ _ _ _ l (hw1e ▸ hsel2) e hel
            simp [this, VOL_A_REG]
          · have := voiceFrame_reg _ _ _ _ _ l (hw2e ▸ hsel2) e hel
            simp [this, VOL_A_REG]
        · have hbl : bz.1 = some l := by
            cases hb : bz.1 with
            | none => rw [hb] at hbzl; simp [Option.toList] at hbzl
            | some l2 =>
              rw [hb] at hbzl
              simp only [Option.toList, List.mem_cons, List.not_mem_nil,
                or_false] at hbzl
              rw [hbzl]
          have := bz_iter_frame_reg d.2.2 fc l (hbze ▸ hbl) e hel
          simp [this, ENV_REG, VOL_A_REG]
      rw [hfd, hfb, hfv, hfm, hfx]
      simp only [List.nil_append, List.append_nil]
      rfl
    · have hall : allNone w1.1 = true := by
        rw [hA1, hc1, hc2]
        simp only [Bool.not_false, Bool.true_and, Bool.not_eq_true']
        exact decide_eq_false hc3
      have hsel : iter_select w1.1 = none := allNone_iter_select hall
      have hfv : ((if allNone w0.1 then [((0 : ℚ), VOL_A_REG, frame.vol VOL_A_REG)] else [])
            ++ (if allNone w1.1 then [((0 : ℚ), VOL_A_REG + 1, frame.vol (VOL_A_REG + 1))] else [])
            ++ (if allNone w2.1 then [((0 : ℚ), VOL_A_REG + 2, frame.vol (VOL_A_REG + 2))] else [])).filter
              (fun e => decide (e.2.1 = VOL_A_REG + 1))
          = [((0 : ℚ), VOL_A_REG + 1, frame.vol (VOL_A_REG + 1))] := by
        rw [List.filter_append, List.filter_append, if_pos hall]
        split_ifs <;> simp [VOL_A_REG]
      have hfx : (mixerRun ([iter_select w0.1, iter_select w1.1, iter_select w2.1].filterMap id
            ++ bz.1.toList)).filter (fun e => decide (e.2.1 = VOL_A_REG + 1)) = [] := by
        rw [List.filter_eq_nil_iff]
        intro e he
        obtain ⟨l, hl, hel⟩ := mixerRun_mem he
        simp only [List.mem_append, List.mem_filterMap, List.mem_cons,
          List.not_mem_nil, or_false, id_eq] at hl
        rcases hl with ⟨o, ho, hsel2⟩ | hbzl
        · rcases ho with rfl | rfl | rfl
          · have := voiceFrame_reg _ _ _ _ _ l (hw0e ▸ hsel2) e hel
            simp [this, VOL_A_REG]
          · rw [hsel] at hsel2
            simp at hsel2
          · have := voiceFrame_reg _ _ _ _ _ l (hw2e ▸ hsel2) e hel
            simp [this, VOL_A_REG]
        · have hbl : bz.1 = some l := by
            cases hb : bz.1 with
            | none => rw [hb] at hbzl; simp [Option.toList] at hbzl
            | some l2 =>
              rw [hb] at hbzl
              simp only [Option.toList, List.mem_cons, List.not_mem_nil,
                or_false] at hbzl
              rw [hbzl]
          have := bz_iter_frame_reg d.2.2 fc l (hbze ▸ hbl) e hel
          simp [this, ENV_REG, VOL_A_REG]
      rw [hfd, hfb, hfv, hfm, hfx]
      simp only [List.nil_append, List.append_nil]
      rfl
    · have hall : allNone w2.1 = true := by
        rw [hA2, hc1, hc2]
        simp only [Bool.not_false, Bool.true_and, Bool.not_eq_true']
        exact decide_eq_false hc3
      have hsel : iter_select w2.1 = none := allNone_iter_select hall
      have hfv : ((if allNone w0.1 then [((0 : ℚ), VOL_A_REG, frame.vol VOL_A_REG)] else [])
            ++ (if allNone w1.1 then [((0 : ℚ), VOL_A_REG + 1, frame.vol (VOL_A_REG + 1))] else [])
            ++ (if allNone w2.1 then [((0 : ℚ), VOL_A_REG + 2, frame.vol (VOL_A_REG + 2))] else [])).filter
              (fun e => decide (e.2.1 = VOL_A_REG + 2))
          = [((0 : ℚ), VOL_A_REG + 2, frame.vol (VOL_A_REG + 2))] := by
        rw [List.filter_append, List.filter_append, if_pos hall]
        split_ifs <;> simp [VOL_A_REG]
      have hfx : (mixerRun ([iter_select w0.1, iter_select w1.1, iter_select w2.1].filterMap id
            ++ bz.1.toList)).filter (fun e => decide (e.2.1 = VOL_A_REG + 2)) = [] := by
        rw [List.filter_eq_nil_iff]
        intro e he
        obtain ⟨l, hl, hel⟩ := mixerRun_mem he
        simp only [List.mem_append, List.mem_filterMap, List.mem_cons,
          List.not_mem_nil, or_false, id_eq] at hl
        rcases hl with ⟨o, ho, hsel2⟩ | hbzl
        · rcases ho with rfl | rfl | rfl
          · have := voiceFrame_reg _ _ _ _ _ l (hw0e ▸ hsel2) e hel
            simp [this, VOL_A_REG]
          · have := voiceFrame_reg _ _ _ _ _ l (hw1e ▸ hsel2) e hel
            simp [this, VOL_A_REG]
          · rw [hsel] at hsel2
            simp at hsel2
        · have hbl : bz.1 = some l := by
            cases hb : bz.1 with
            | none => rw [hb] at hbzl; simp [Option.toList] at hbzl
            | some l2 =>
              rw [hb] at hbzl
              simp only [Option.toList, List.mem_cons, List.not_mem_nil,
                or_false] at hbzl
              rw [hbzl]
          have := bz_iter_frame_reg d.2.2 fc l (hbze ▸ hbl) e hel
          simp [this, ENV_REG, VOL_A_REG]
      rw [hfd, hfb, hfv, hfm, hfx]
      simp only [List.nil_append, List.append_nil]
      rfl

/-- Witness for C4 on a concrete effect-free one-frame YM3 song (voice A
has no active unit, so exactly its plain volume write appears). -/
theorem claimC4_voice_priority_witness :
    (YmSong.new YmVersion.Ym3 [⟨List.replicate 16 0⟩] 0
        "t").produce_next_ay_frame.1.filter (fun e => decide (e.2.1 = VOL_A_REG + 0))
      = [((0 : ℚ), VOL_A_REG + 0,
          ((YmSong.new YmVersion.Ym3 [⟨List.replicate 16 0⟩] 0
            "t").frames.getD
              (YmSong.new YmVersion.Ym3 [⟨List.replicate 16 0⟩] 0 "t").cursor
              default).vol 0)] :=
  (claimC4_voice_priority (YmSong.new YmVersion.Ym3 [⟨List.replicate 16 0⟩] 0 "t")).2
    0 (by decide) (by decide) (by decide) (by decide)


/-! ### Parser lemmas (C8, C6) -/

/-- `parse_ym3` on a body whose size passes both checks: the success
value spelled out. -/
theorem parse_ym3_ok (version : YmVersion) (bytes : List ℕ) (title : String)
    (hmod : bytes.length % 14 = 0 ∨ bytes.length % 14 = 4)
    (hnz : bytes.length / 14 ≠ 0) :
    parse_ym3 version bytes title
      = Except.ok (YmSong.new version
          (read_interleaved_frames (bytes.length / 14) 14 bytes)
          (if bytes.length % 14 = 4 then
            read_dword (bytes.drop (14 * (bytes.length / 14))) else 0)
          title) := by
  simp only [parse_ym3]
  rw [if_neg, if_neg hnz]
  rcases hmod with h | h <;> simp [h]

/-- Claim C8 (confirmed).  Parsing a YM3!/YM3b body: size mod 14 outside
`{0, 4}` fails with "wrong file size"; a zero frame count fails with "no
YM data"; with remainder 4 the loop frame is the big-endian dword that
follows the `size / 14` frames; with remainder 0 the loop frame is 0. -/
theorem claimC8_parse_ym3 (version : YmVersion) (bytes : List ℕ) (title : String) :
    (bytes.length % 14 ≠ 0 → bytes.length % 14 ≠ 4 →
        parse_ym3 version bytes title = Except.error "wrong file size") ∧
    ((bytes.length % 14 = 0 ∨ bytes.length % 14 = 4) → bytes.length / 14 = 0 →
        parse_ym3 version bytes title = Except.error "no YM data") ∧
    (bytes.length % 14 = 4 → bytes.length / 14 ≠ 0 →
        (parse_ym3 version bytes title).map YmSong.loop_frame
          = Except.ok (read_dword (bytes.drop (14 * (bytes.length / 14))))) ∧
    (bytes.length % 14 = 0 → bytes.length / 14 ≠ 0 →
        (parse_ym3 version bytes title).map YmSong.loop_frame = Except.ok 0) := by
  refine ⟨?_, ?_, ?_, ?_⟩
  · intro h0 h4
    simp only [parse_ym3]
    rw [if_pos]
    exact ⟨h0, h4⟩
  · intro hmod hz
    simp only [parse_ym3]
    rw [if_neg, if_pos hz]
    rcases hmod with h | h <;> simp [h]
  · intro h4 hnz
    rw [parse_ym3_ok version bytes title (Or.inr h4) hnz, if_pos h4]
    rfl
  · intro h0 hnz
    have h4 : bytes.length % 14 ≠ 4 := by omega
    rw [parse_ym3_ok version bytes title (Or.inl h0) hnz, if_neg h4]
    rfl

/-- Witness for C8: a 3-byte body, an empty body, a one-frame body with a
trailing loop dword `258`, and a bare one-frame body. -/
theorem claimC8_parse_ym3_witness :
    parse_ym3 YmVersion.Ym3 [0, 0, 0] "t" = Except.error "wrong file size" ∧
    parse_ym3 YmVersion.Ym3 [] "t" = Except.error "no YM data" ∧
    (parse_ym3 YmVersion.Ym3 (List.replicate 14 0 ++ [0, 0, 1, 2]) "t").map
        YmSong.loop_frame = Except.ok 258 ∧
    (parse_ym3 YmVersion.Ym3 (List.replicate 14 0) "t").map YmSong.loop_frame
      = Except.ok 0 :=
  ⟨(claimC8_parse_ym3 YmVersion.Ym3 [0, 0, 0] "t").1 (by decide) (by decide),
   (claimC8_parse_ym3 YmVersion.Ym3 [] "t").2.1 (by decide) (by decide),
   ((claimC8_parse_ym3 YmVersion.Ym3 (List.replicate 14 0 ++ [0, 0, 1, 2]) "t").2.2.1
       (by decide) (by decide)).trans (by rfl),
   (claimC8_parse_ym3 YmVersion.Ym3 (List.replicate 14 0) "t").2.2.2
       (by decide) (by decide)⟩

/-- Claim C6 (corrected).  After a successful YM2 parse, `dd_samples` is
the nibble-split resource (each packed byte split into high nibble then
low nibble), but `dd_samples_ends` keeps the all-zero table installed by
`YmSong.new`; the fixed cumulative end-offset table — first six entries
631, 1262, 1752, 2242, 2941, 3446, last entry 24757, 40 entries in all —
exists only as the `YM2_SAMPLE_ENDS` constant of `parse.rs`, which
`parse_ym2` never copies into the song. -/
theorem claimC6_ym2_samples (resource bytes : List ℕ) (title : String)
    (hmod : bytes.length % 14 = 0 ∨ bytes.length % 14 = 4)
    (hnz : bytes.length / 14 ≠ 0) :
    (parse_ym2 resource bytes title).map YmSong.dd_samples
      = Except.ok (resource.flatMap fun smp => [smp >>> 4, smp &&& 0x0F]) ∧
    (parse_ym2 resource bytes title).map YmSong.dd_samples_ends
      = Except.ok (List.replicate 32 0) ∧
    YM2_SAMPLE_ENDS.length = 40 ∧
    YM2_SAMPLE_ENDS.take 6 = [631, 1262, 1752, 2242, 2941, 3446] ∧
    YM2_SAMPLE_ENDS.getLast? = some 24757 := by
  have hok := parse_ym3_ok YmVersion.Ym2 bytes title hmod hnz
  refine ⟨?_, ?_, rfl, rfl, rfl⟩
  · simp only [parse_ym2, hok]
    rfl
  · simp only [parse_ym2, hok]
    rfl

/-- Counterexample to C6 as stated: a successfully parsed YM2 file keeps
`dd_samples_ends` all-zero — entry 0 is `0`, not the `631` the fixed
cumulative table would put there (while `dd_samples` does receive the
nibble-split resource bytes). -/
theorem claimC6_counterexample :
    (parse_ym2 [171] (List.replicate 14 0) "t").map
        (fun s => s.dd_samples_ends.getD 0 0) = Except.ok 0 ∧
    (parse_ym2 [171] (List.replicate 14 0) "t").map YmSong.dd_samples
      = Except.ok [10, 11] ∧
    (0 : ℕ) ≠ 631 := by
  refine ⟨rfl, rfl, by decide⟩

/-- Witness for C6 (amended) on a one-frame body and a one-byte packed
resource. -/
theorem claimC6_ym2_samples_witness :
    (parse_ym2 [18] (List.replicate 14 0) "w").map YmSong.dd_samples
      = Except.ok [1, 2] ∧
    (parse_ym2 [18] (List.replicate 14 0) "w").map YmSong.dd_samples_ends
      = Except.ok (List.replicate 32 0) := by
  have h := claimC6_ym2_samples [18] (List.replicate 14 0) "w" (by decide) (by decide)
  exact ⟨h.1.trans (by rfl), h.2.1⟩


/-! ### The YM2 DIGI-DRUM guard (C10) -/

/-- Claim C10 (confirmed).  When a YM2 frame requests a DIGI-DRUM (bit 7
of the voice-C volume byte set) with a 7-bit sample index of 40 or more,
the out-of-range index falls outside the 40-entry `YM2_SAMPLE_ENDS`
table, the guarded (`Option`-returning) lookup yields `none`, and the
frame leaves the effect state untouched: no DIGI-DRUM is started and no
out-of-bounds access happens (the embedding is total). -/
theorem claimC10_ym2_dd_guard (s : YmSong)
    (h7 : (s.frames.getD s.cursor default).data.getD 10 0 &&& 0x80 = 0x80)
    (hge : 40 ≤ (s.frames.getD s.cursor default).data.getD 10 0 &&& 0x7f) :
    (play_ym2_frame s).2.1 = s.voice_effects ∧
    (play_ym2_frame s).2.2 = s.buzzer ∧
    YM2_SAMPLE_ENDS.length = 40 := by
  have hlen : YM2_SAMPLE_ENDS.length = 40 := rfl
  refine ⟨?_, rfl, hlen⟩
  have hnone : YM2_SAMPLE_ENDS.get?
      ((s.frames.getD s.cursor default).data.getD 10 0 &&& 0x7f) = none := by
    rw [List.get?_eq_none]
    omega
  simp only [play_ym2_frame]
  rw [if_pos h7, hnone]

/-- Witness for C10: a one-frame YM2 song whose voice-C volume byte is
`0xA9` (bit 7 set, sample index 41). -/
theorem claimC10_ym2_dd_guard_witness :
    (((YmSong.new YmVersion.Ym2 [⟨[0, 0, 0, 0, 0, 0, 0, 0, 0, 0, 169, 0, 0, 0, 0, 0]⟩]
        0 "t").frames.getD
          (YmSong.new YmVersion.Ym2 [⟨[0, 0, 0, 0, 0, 0, 0, 0, 0, 0, 169, 0, 0, 0, 0, 0]⟩]
            0 "t").cursor default).data.getD 10 0 &&& 0x80 = 0x80 ∧
     40 ≤ ((YmSong.new YmVersion.Ym2 [⟨[0, 0, 0, 0, 0, 0, 0, 0, 0, 0, 169, 0, 0, 0, 0, 0]⟩]
        0 "t").frames.getD
          (YmSong.new YmVersion.Ym2 [⟨[0, 0, 0, 0, 0, 0, 0, 0, 0, 0, 169, 0, 0, 0, 0, 0]⟩]
            0 "t").cursor default).data.getD 10 0 &&& 0x7f) ∧
    (play_ym2_frame (YmSong.new YmVersion.Ym2
        [⟨[0, 0, 0, 0, 0, 0, 0, 0, 0, 0, 169, 0, 0, 0, 0, 0]⟩] 0 "t")).2.1
      = (YmSong.new YmVersion.Ym2
          [⟨[0, 0, 0, 0, 0, 0, 0, 0, 0, 0, 169, 0, 0, 0, 0, 0]⟩] 0 "t").voice_effects :=
  ⟨⟨by decide, by decide⟩,
   (claimC10_ym2_dd_guard
      (YmSong.new YmVersion.Ym2 [⟨[0, 0, 0, 0, 0, 0, 0, 0, 0, 0, 169, 0, 0, 0, 0, 0]⟩]
        0 "t") (by decide) (by decide)).1⟩


/-! ### The Sinus SID table and per-tick emission (C9) -/

/-- Certification of the `SINUS_SID` entries against the `f32` cosine
values the builder in `effects.rs` actually feeds into
`(c * 0.5 + 0.5) * 255).round()`, taken here as a parameter `c` (the
value `cosf` returns for angle index `n`).  The hypotheses are the facts
forced by `f32` arithmetic and any faithfully rounded `cosf`: the
computations at indices 0 and 4 are exact; at indices 1, 3, 5, 7 the
computed cosine is within `1/1000` of `±√2/2` (the true error is below
`10⁻⁶`); at index 2 the `f32` angle `13176795/2²³` exceeds `π/2`, so the
cosine is negative and of magnitude below `1/200`; at index 6 the `f32`
angle `9882596/2²¹` exceeds `3·π/2`, so it is non-negative and below
`1/200`.  Under these facts the rounded values are exactly the table —
in particular `127` at index 2 and `128` at index 6.  (The `f32`
roundings the source performs after the cosine cannot move any entry:
every intermediate value is farther from a rounding boundary than the
margins used here.) -/
theorem SINUS_SID_of_f32_cos (c : ℕ → ℝ)
    (h0 : c 0 = 1)
    (h1 : |c 1 - Real.sqrt 2 / 2| ≤ 1 / 1000)
    (h2 : -(1 / 200) ≤ c 2 ∧ c 2 < 0)
    (h3 : |c 3 + Real.sqrt 2 / 2| ≤ 1 / 1000)
    (h4 : c 4 = -1)
    (h5 : |c 5 + Real.sqrt 2 / 2| ≤ 1 / 1000)
    (h6 : 0 ≤ c 6 ∧ c 6 ≤ 1 / 200)
    (h7 : |c 7 - Real.sqrt 2 / 2| ≤ 1 / 1000) :
    ∀ n : ℕ, n < 8 →
      (SINUS_SID.getD n 0 : ℤ) = round ((c n * 0.5 + 0.5) * 255) := by
  have hs2 : Real.sqrt 2 ^ 2 = 2 := Real.sq_sqrt (by norm_num)
  have hs0 : (0 : ℝ) ≤ Real.sqrt 2 := Real.sqrt_nonneg 2
  have hlo : (1.4142 : ℝ) ≤ Real.sqrt 2 := by nlinarith
  have hhi : Real.sqrt 2 ≤ 1.4143 := by nlinarith
  rw [abs_le] at h1 h3 h5 h7
  intro n hn
  interval_cases n
  · rw [show SINUS_SID.getD 0 0 = 255 from rfl, h0, round_eq]
    symm
    rw [Int.floor_eq_iff]
    push_cast
    norm_num
  · rw [show SINUS_SID.getD 1 0 = 218 from rfl, round_eq]
    symm
    rw [Int.floor_eq_iff]
    push_cast
    constructor <;> linarith [h1.1, h1.2, hlo, hhi]
  · rw [show SINUS_SID.getD 2 0 = 127 from rfl, round_eq]
    symm
    rw [Int.floor_eq_iff]
    push_cast
    constructor <;> linarith [h2.1, h2.2]
  · rw [show SINUS_SID.getD 3 0 = 37 from rfl, round_eq]
    symm
    rw [Int.floor_eq_iff]
    push_cast
    constructor <;> linarith [h3.1, h3.2, hlo, hhi]
  · rw [show SINUS_SID.getD 4 0 = 0 from rfl, h4, round_eq]
    symm
    rw [Int.floor_eq_iff]
    push_cast
    norm_num
  · rw [show SINUS_SID.getD 5 0 = 37 from rfl, round_eq]
    symm
    rw [Int.floor_eq_iff]
    push_cast
    constructor <;> linarith [h5.1, h5.2, hlo, hhi]
  · rw [show SINUS_SID.getD 6 0 = 128 from rfl, round_eq]
    symm
    rw [Int.floor_eq_iff]
    push_cast
    constructor <;> linarith [h6.1, h6.2]
  · rw [show SINUS_SID.getD 7 0 = 218 from rfl, round_eq]
    symm
    rw [Int.floor_eq_iff]
    push_cast
    constructor <;> linarith [h7.1, h7.2, hlo, hhi]

/-- The per-tick closure loop of `SinusSid.iter_frame`: the `k`-th emitted
value is the table value at phase `start + k` (reduced mod 8), and the
final phase is the start advanced by the tick count mod 8. -/
theorem sinusLoop_values (step limit : ℚ) (reg amp : ℕ) :
    ∀ (f : ℕ) (c : ℚ) (ph : ℕ), ph < 8 →
      ((fxLoop (fun ts p => (ts, reg, sinus_sid p amp)) (fun p => (p + 1) % 8)
          step limit f c ph).1.map (fun e => e.2.2)
        = (List.range
            (fxLoop (fun ts p => (ts, reg, sinus_sid p amp)) (fun p => (p + 1) % 8)
              step limit f c ph).1.length).map (fun k => sinus_sid (ph + k) amp)) ∧
      (fxLoop (fun ts p => (ts, reg, sinus_sid p amp)) (fun p => (p + 1) % 8)
          step limit f c ph).2.2
        = (ph + (fxLoop (fun ts p => (ts, reg, sinus_sid p amp)) (fun p => (p + 1) % 8)
            step limit f c ph).1.length) % 8 := by
  intro f
  induction f with
  | zero =>
    intro c ph hph
    simp only [fxLoop, List.map_nil, List.length_nil, List.range_zero]
    exact ⟨trivial, by omega⟩
  | succ f ih =>
    intro c ph hph
    by_cases hc : c < limit
    · have hih := ih (c + step) ((ph + 1) % 8) (Nat.mod_lt _ (by norm_num))
      simp only [fxLoop, if_pos hc]
      refine ⟨?_, ?_⟩
      · simp only [List.map_cons, List.length_cons]
        rw [hih.1, List.range_succ_eq_map, List.map_cons, List.map_map]
        refine congrArg₂ List.cons rfl (List.map_congr_left fun k hk => ?_)
        have hm : ((ph + 1) % 8 + k) % 8 = (ph + (k + 1)) % 8 := by omega
        simp only [Function.comp, Nat.succ_eq_add_one, sinus_sid, hm]
      · simp only [List.length_cons]
        rw [hih.2]
        omega
    · simp only [fxLoop, if_neg hc, List.map_nil, List.length_nil, List.range_zero]
      exact ⟨trivial, by omega⟩

/-- Claim C9 (corrected).  `SINUS_SID[0] = 255` and `SINUS_SID[4] = 0`
hold, but the `f32`-built table is mirror-symmetric only away from the
pair `{2, 6}`: `SINUS_SID[2] = 127` while `SINUS_SID[6] = 128`, so
`SINUS_SID[k] = SINUS_SID[(8−k) mod 8]` fails at `k = 2` (and `k = 6`).
While active, the `k`-th event of a `SinusSid` frame carries
`(SINUS_SID[(phase+k) mod 8]·amplitude + 127) / 255` in integer
arithmetic and the stored phase advances by the tick count modulo 8
(staying below 8). -/
theorem claimC9_sinus_sid (ss : SinusSid) (limit : ℚ) (reg : ℕ)
    (hact : ss.active = true) (hph : ss.phase < 8) :
    (SINUS_SID.getD 0 0 = 255 ∧ SINUS_SID.getD 4 0 = 0 ∧
      (∀ k, k < 8 → k ≠ 2 → k ≠ 6 →
        SINUS_SID.getD k 0 = SINUS_SID.getD ((8 - k) % 8) 0) ∧
      SINUS_SID.getD 2 0 = 127 ∧ SINUS_SID.getD 6 0 = 128) ∧
    ∀ evs, (ss.iter_frame limit reg).1 = some evs →
      (evs.map (fun e => e.2.2)
        = (List.range evs.length).map
            (fun k => (SINUS_SID.getD ((ss.phase + k) % 8) 0 * ss.amplitude + 127) / 255)) ∧
      (ss.iter_frame limit reg).2.phase = (ss.phase + evs.length) % 8 ∧
      (ss.iter_frame limit reg).2.phase < 8 := by
  refine ⟨by decide, ?_⟩
  intro evs hevs
  have h := sinusLoop_values ss.timer.step limit reg ss.amplitude
      (timerFuel ss.timer limit) ss.timer.current ss.phase hph
  simp only [SinusSid.iter_frame] at hevs ⊢
  rw [if_pos hact] at hevs ⊢
  dsimp only at hevs ⊢
  injection hevs with hevs
  subst hevs
  refine ⟨h.1, h.2, ?_⟩
  rw [h.2]
  exact Nat.mod_lt _ (by norm_num)

/-- Counterexample to C9 as stated: the table the source builds with
`f32` cosine is not mirror-symmetric — entry 2 is `127` (the `f32`
angle exceeds `π/2`, so the computed cosine is slightly negative) while
entry `(8 − 2) mod 8 = 6` is `128`. -/
theorem claimC9_counterexample :
    SINUS_SID.getD 2 0 = 127 ∧ SINUS_SID.getD ((8 - 2) % 8) 0 = 128 ∧
    SINUS_SID.getD 2 0 ≠ SINUS_SID.getD ((8 - 2) % 8) 0 := by
  decide

/-- Witness for C9 (amended) at a concrete active Sinus SID state
(phase 0, amplitude 15). -/
theorem claimC9_sinus_sid_witness :
    ((⟨⟨0, 1⟩, 15, 0, true⟩ : SinusSid).active = true ∧
     (⟨⟨0, 1⟩, 15, 0, true⟩ : SinusSid).phase < 8) ∧
    ((SINUS_SID.getD 0 0 = 255 ∧ SINUS_SID.getD 4 0 = 0 ∧
      (∀ k, k < 8 → k ≠ 2 → k ≠ 6 →
        SINUS_SID.getD k 0 = SINUS_SID.getD ((8 - k) % 8) 0) ∧
      SINUS_SID.getD 2 0 = 127 ∧ SINUS_SID.getD 6 0 = 128) ∧
    ∀ evs, ((⟨⟨0, 1⟩, 15, 0, true⟩ : SinusSid).iter_frame 2 8).1 = some evs →
      (evs.map (fun e => e.2.2)
        = (List.range evs.length).map
            (fun k => (SINUS_SID.getD ((0 + k) % 8) 0 * 15 + 127) / 255)) ∧
      ((⟨⟨0, 1⟩, 15, 0, true⟩ : SinusSid).iter_frame 2 8).2.phase
        = (0 + evs.length) % 8 ∧
      ((⟨⟨0, 1⟩, 15, 0, true⟩ : SinusSid).iter_frame 2 8).2.phase < 8) :=
  ⟨⟨rfl, by decide⟩,
   claimC9_sinus_sid ⟨⟨0, 1⟩, 15, 0, true⟩ 2 8 rfl (by decide)⟩

end Ym
